import Mathlib

/-
Verification development for the docrag ingestion core:
a shallow embedding of the front-matter parser, section chunker,
embedding/batching plumbing, chunk-record builder (src/src/14_index.py)
and the identity reconciler (src/input/input.py, src/input/utils.py,
src/input/check_pdf.py), with theorems about their specified properties.

Strings are modelled as `List Char` (Python `str`, restricted to the
newline terminator `\n`); all definitions are structural translations of
the Python source.
-/

set_option autoImplicit false

namespace DocRag

/-- Python `str`, modelled as a list of characters. -/
abbrev Str := List Char

/-- Python whitespace characters (`str.strip` / `\s`, ASCII subset). -/
def pySpace (c : Char) : Bool :=
  c = ' ' || c = '\t' || c = '\n' || c = '\r' || c = Char.ofNat 11 || c = Char.ofNat 12

/-- Python `str.lstrip()`. -/
def lstrip (s : Str) : Str := s.dropWhile pySpace

/-- Python `str.rstrip()`. -/
def rstrip (s : Str) : Str := (s.reverse.dropWhile pySpace).reverse

/-- Python `str.strip()`. -/
def strip (s : Str) : Str := rstrip (lstrip s)

/-- ASCII lower-casing of one character (Python `str.lower` on the ASCII range). -/
def lowerCh (c : Char) : Char :=
  if 'A' ≤ c ∧ c ≤ 'Z' then Char.ofNat (c.toNat + 32) else c

/-- Python `str.lower()` / `str.casefold()` on the ASCII range. -/
def lower (s : Str) : Str := s.map lowerCh

/-- Worker for `splitlines`: accumulates the current line (reversed). -/
def slGo : Str → Str → List Str
  | [], acc => [acc.reverse]
  | c :: rest, acc =>
    if c = '\n' then
      match rest with
      | [] => [acc.reverse]
      | _ => acc.reverse :: slGo rest []
    else slGo rest (c :: acc)

/-- Python `str.splitlines()` for `\n`-terminated text: splits on `\n`,
with no trailing empty line when the text ends in `\n`, and `[]` on `""`. -/
def splitlines : Str → List Str
  | [] => []
  | s => slGo s []

/-- Python `"\n".join(lines)`. -/
def joinLines : List Str → Str
  | [] => []
  | [l] => l
  | l :: ls => l ++ '\n' :: joinLines ls

/-- Python `sep.join(pieces)` for an arbitrary separator. -/
def joinWith (sep : Str) : List Str → Str
  | [] => []
  | [l] => l
  | l :: ls => l ++ sep ++ joinWith sep ls

-- --- Front matter parsing (src/src/14_index.py lines 44-95) ---

/-- `FM_BOUNDARY = re.compile(r"^---\s*$")`: three dashes then only whitespace. -/
def isBoundary : Str → Bool
  | '-' :: '-' :: '-' :: rest => rest.all pySpace
  | _ => false

/-- A character of the `KEY_VAL_RE` key class `[A-Za-z0-9_\-]`. -/
def isKeyChar (c : Char) : Bool :=
  ('A' ≤ c ∧ c ≤ 'Z') || ('a' ≤ c ∧ c ≤ 'z') || ('0' ≤ c ∧ c ≤ '9') || c = '_' || c = '-'

/-- `KEY_VAL_RE = re.compile(r"^(?P<key>[A-Za-z0-9_\-]+):\s*(?P<val>.*)$")`:
returns the key and the raw value (text after the colon; the `\s*` prefix is
folded into the `strip` the caller applies). -/
def keyValMatch (l : Str) : Option (Str × Str) :=
  let key := l.takeWhile isKeyChar
  match l.dropWhile isKeyChar with
  | ':' :: r => if key = [] then none else some (key, r)
  | _ => none

/-- `LIST_ITEM_RE = re.compile(r"^\s*\-\s*(.*)$")`: returns the captured group. -/
def listItemMatch (l : Str) : Option Str :=
  match l.dropWhile pySpace with
  | '-' :: r => some (r.dropWhile pySpace)
  | _ => none

/-- Strip one layer of surrounding quotes, as in
`if (val.startswith('"') and val.endswith('"')) or (...'...'...): val = val[1:-1]`. -/
def unquote (v : Str) : Str :=
  if v ≠ [] ∧ ((v.head? = some '"' ∧ v.getLast? = some '"') ∨
      (v.head? = some (Char.ofNat 39) ∧ v.getLast? = some (Char.ofNat 39))) then
    (v.drop 1).dropLast
  else v

/-- A front-matter value: scalar string or list of strings. -/
inductive FMVal where
  | str (s : Str)
  | list (l : List Str)
deriving DecidableEq

/-- Python `dict` assignment `meta[key] = val` on an insertion-ordered mapping. -/
def setMeta : List (Str × FMVal) → Str → FMVal → List (Str × FMVal)
  | [], k, v => [(k, v)]
  | (k0, v0) :: rest, k, v =>
    if k0 = k then (k, v) :: rest else (k0, v0) :: setMeta rest k v

/-- `meta[current_key] = current_list` guarded by
`if current_key and current_list is not None`. -/
def commitList (meta : List (Str × FMVal)) (ck : Option Str) (cl : Option (List Str)) :
    List (Str × FMVal) :=
  match ck, cl with
  | some k, some l => if k = [] then meta else setMeta meta k (FMVal.list l)
  | _, _ => meta

/-- The scan loop of `parse_front_matter` over the lines after the opening
boundary; returns `none` when no closing boundary is found, otherwise the
accumulated mapping and the remaining (body) lines. -/
def fmLoop : List Str → List (Str × FMVal) → Option Str → Option (List Str) →
    Option (List (Str × FMVal) × List Str)
  | [], _, _, _ => none
  | line :: rest, meta, ck, cl =>
    if isBoundary line then
      some (commitList meta ck cl, rest)
    else if strip line = [] then
      fmLoop rest meta ck cl
    else
      match keyValMatch line with
      | some (key0, val0) =>
        let meta1 := commitList meta ck cl
        let key := strip key0
        let val := strip val0
        if val = [] ∨ val = ['|'] ∨ val = ['>'] then
          fmLoop rest meta1 (some key) (some [])
        else
          fmLoop rest (setMeta meta1 key (FMVal.str (unquote val))) none none
      | none =>
        match listItemMatch line, ck with
        | some g, some k =>
          let item := unquote (strip g)
          let cur := match cl with | none => [] | some l => l
          fmLoop rest meta (some k) (some (cur ++ [item]))
        | _, _ => fmLoop rest meta ck cl

/-- `parse_front_matter(md_text)` (src/src/14_index.py lines 51-95): returns
the metadata mapping and the body text. -/
def parse_front_matter (t : Str) : List (Str × FMVal) × Str :=
  match splitlines t with
  | [] => ([], t)
  | l0 :: rest =>
    if isBoundary l0 then
      match fmLoop rest [] none none with
      | some (meta, bodyLines) => (meta, joinLines bodyLines)
      | none => ([], t)
    else ([], t)

-- --- Markdown chunking (src/src/14_index.py lines 98-196) ---

/-- `HEADING_RE = re.compile(r"^(?P<h>#{1,6})\s+(?P<title>.+?)\s*$")`, composed
with the `title.strip()` the caller applies: returns the heading level and the
stripped title.  A line matches iff it starts with 1-6 `#` characters (not
followed by a further `#`), the next character is whitespace, and at least one
more character follows. -/
def headingMatch (l : Str) : Option (Nat × Str) :=
  let n := (l.takeWhile (· = '#')).length
  if 1 ≤ n ∧ n ≤ 6 then
    match l.drop n with
    | c :: r => if pySpace c ∧ r ≠ [] then some (n, strip (c :: r)) else none
    | [] => none
  else none

/-- A chunk as produced by `chunk_markdown` (the Python `Chunk` dataclass;
`section` is renamed `sect` as `section` is a Lean keyword). -/
structure Chunk where
  text : Str
  sect : Str
  chunk_index : Nat
  image_refs : List Str
deriving DecidableEq

/-- Worker for `_split_paragraphs`: accumulates the buffer reversed; `flush`
keeps a buffer only when some line has non-empty `strip`. -/
def spGo : List Str → List Str → List (List Str)
  | [], buf =>
    if buf ≠ [] ∧ buf.any (fun s => strip s ≠ []) then [buf.reverse] else []
  | ln :: rest, buf =>
    if strip ln = [] then
      (if buf ≠ [] ∧ buf.any (fun s => strip s ≠ []) then [buf.reverse] else []) ++ spGo rest []
    else spGo rest (ln :: buf)

/-- `_split_paragraphs(lines)` (src/src/14_index.py lines 112-126). -/
def _split_paragraphs (lines : List Str) : List (List Str) := spGo lines []

/-- Worker for the sentence split `re.split(r"(?<=[.!?])\s+", text)`:
`prev` is the previous character (the lookbehind), `inSep` records that we are
inside a whitespace run already consumed as a separator. -/
def ssGo : Str → Str → Char → Bool → List Str
  | [], acc, _, _ => [acc.reverse]
  | c :: rest, acc, prev, inSep =>
    if inSep ∧ pySpace c then ssGo rest acc c true
    else if pySpace c ∧ (prev = '.' ∨ prev = '!' ∨ prev = '?') then
      acc.reverse :: ssGo rest [] c true
    else ssGo rest (c :: acc) c false

/-- `re.split(r"(?<=[.!?])\s+", text)`: split on whitespace runs preceded by
`.`, `!` or `?`. -/
def splitSentences (t : Str) : List Str := ssGo t [] (Char.ofNat 0) false

/-- The greedy sentence-packing loop of `_smart_split`. -/
def packGo : List Str → Str → Nat → List Str
  | [], cur, _ => if cur ≠ [] then [cur] else []
  | s :: ss, cur, maxLen =>
    if cur = [] then packGo ss s maxLen
    else if cur.length + 1 + s.length ≤ maxLen then packGo ss (cur ++ ' ' :: s) maxLen
    else cur :: packGo ss s maxLen

/-- The hard-cut loop `for i in range(0, len(p), max_len): out.append(p[i:i+max_len])`
(for `max_len ≥ 1`), with structural fuel bounded by the length of `p`. -/
def hardCutGo : Nat → Str → Nat → List Str
  | 0, _, _ => []
  | _, [], _ => []
  | fuel + 1, p, maxLen => p.take maxLen :: hardCutGo fuel (p.drop maxLen) maxLen

/-- `_smart_split(text, max_len)` (src/src/14_index.py lines 129-152). -/
def _smart_split (text : Str) (maxLen : Nat) : List Str :=
  if text.length ≤ maxLen then [text]
  else
    let parts := packGo (splitSentences text) [] maxLen
    (parts.map (fun p =>
      if p.length ≤ maxLen then [p] else hardCutGo p.length p maxLen)).flatten

/-- After a `!`, try to match `\[[^\]]*\]\(([^\)]+)\)`: returns the captured
target and the remaining text after the closing parenthesis. -/
def imageTail (s : Str) : Option (Str × Str) :=
  match s with
  | '[' :: r =>
    let alt := r.takeWhile (· ≠ ']')
    match r.drop alt.length with
    | ']' :: '(' :: r2 =>
      let tgt := r2.takeWhile (· ≠ ')')
      if tgt = [] then none
      else
        match r2.drop tgt.length with
        | ')' :: rem => some (tgt, rem)
        | _ => none
    | _ => none
  | _ => none

/-- Worker for `IMAGE_RE.findall`: scans left to right, restarting after each
match (fuel bounded by the string length). -/
def imageGo : Nat → Str → List Str
  | 0, _ => []
  | _, [] => []
  | fuel + 1, c :: rest =>
    if c = '!' then
      match imageTail rest with
      | some (tgt, rem) => tgt :: imageGo fuel rem
      | none => imageGo fuel rest
    else imageGo fuel rest

/-- `IMAGE_RE.findall(text)` with `IMAGE_RE = re.compile(r"!\[[^\]]*\]\(([^\)]+)\)")`. -/
def imageFindAll (t : Str) : List Str := imageGo t.length t

/-- `" / ".join(section_stack)` (`current_section`). -/
def joinSec (stack : List Str) : Str := joinWith (" / ".toList) stack

/-- The chunk texts (with shared image refs) contributed by one paragraph of a
block, before index assignment (`process_block` inner loop). -/
def paraChunks (para : List Str) (maxLen : Nat) : List (Str × List Str) :=
  let paraText := strip (joinLines para)
  if paraText = [] then []
  else (_smart_split paraText maxLen).map (fun part => (part, imageFindAll paraText))

/-- All `(text, image_refs)` pieces of a block, in emission order. -/
def blockPieces (blines : List Str) (maxLen : Nat) : List (Str × List Str) :=
  ((_split_paragraphs blines).map (fun para => paraChunks para maxLen)).flatten

/-- Assign consecutive `chunk_index` values starting at `idx`. -/
def withIdx : List (Str × List Str) → Str → Nat → List Chunk
  | [], _, _ => []
  | (t, imgs) :: rest, secTitle, idx =>
    ⟨t, secTitle, idx, imgs⟩ :: withIdx rest secTitle (idx + 1)

/-- `process_block(blines, section_title)`: the chunks appended for one block,
starting at chunk index `idx`. -/
def flushBlock (block : List Str) (stack : List Str) (idx maxLen : Nat) : List Chunk :=
  withIdx (blockPieces block maxLen) (joinSec stack) idx

/-- The `while len(section_stack) >= level: section_stack.pop()` loop, with
structural fuel (the stack length bounds the number of pops). -/
def popToGo : Nat → List Str → Nat → List Str
  | 0, st, _ => st
  | fuel + 1, st, level => if level ≤ st.length then popToGo fuel st.dropLast level else st

/-- Pop the heading stack down while its length is at least `level`. -/
def popWhile (st : List Str) (level : Nat) : List Str := popToGo st.length st level

/-- The heading-stack transition of `chunk_markdown` for one line: on a heading
of level `L`, pop down and push the new title; otherwise unchanged. -/
def stackStep (stack : List Str) (l : Str) : List Str :=
  match headingMatch l with
  | some (level, title) => popWhile stack level ++ [title]
  | none => stack

/-- The line walk of `chunk_markdown`: `lines` remaining, current heading
`stack`, accumulated `block` lines, next chunk index `idx`. -/
def cmGo (maxLen : Nat) : List Str → List Str → List Str → Nat → List Chunk
  | [], stack, block, idx => flushBlock block stack idx maxLen
  | l :: rest, stack, block, idx =>
    match headingMatch l with
    | some (level, title) =>
      let flushed := flushBlock block stack idx maxLen
      flushed ++ cmGo maxLen rest (popWhile stack level ++ [title]) [] (idx + flushed.length)
    | none => cmGo maxLen rest stack (block ++ [l]) idx

/-- `chunk_markdown(md_body, max_text_len)` (src/src/14_index.py lines 155-196). -/
def chunk_markdown (body : Str) (maxLen : Nat := 7000) : List Chunk :=
  cmGo maxLen (splitlines body) [] [] 0

-- --- Embeddings (src/src/14_index.py lines 214-242) ---

/-- The one-at-a-time fallback loop of `embed_texts` (per-item calls to the
provider, modelled by the per-text embedding function `e`). -/
def perItem {V : Type} (e : Str → V) : List Str → List V
  | [] => []
  | t :: ts => e t :: perItem e ts

/-- The batch loop of `embed_texts`: slices of size `bs`; a batch whose call
fails (or returns no `embeddings`) is retried one item at a time.  Per the
Embedding Provider contract a successful batch call returns the per-text
vectors in order, i.e. `batch.map e`.  Fuel is bounded by the text count. -/
def embedGo {V : Type} (e : Str → V) (batchFails : List Str → Bool) (bs : Nat) :
    Nat → List Str → List V
  | 0, _ => []
  | _, [] => []
  | fuel + 1, ts =>
    let batch := ts.take bs
    (if batchFails batch then perItem e batch else batch.map e) ++
      embedGo e batchFails bs fuel (ts.drop bs)

/-- `embed_texts(texts, model, batch_size)` (src/src/14_index.py lines 214-242),
parameterised by the injected per-text embedding `e` and by which batch calls
fail. -/
def embed_texts {V : Type} (e : Str → V) (batchFails : List Str → Bool) (bs : Nat)
    (texts : List Str) : List V :=
  embedGo e batchFails bs texts.length texts

/-- The text sent to the embedding provider for a chunk
(`f"{c.section}\n\n{c.text}" if args.prepend_section and c.section else c.text`). -/
def embedInput (prepend : Bool) (c : Chunk) : Str :=
  if prepend ∧ c.sect ≠ [] then c.sect ++ '\n' :: '\n' :: c.text else c.text

-- --- Chunk record builder (src/src/14_index.py lines 424-425, 486-524) ---

/-- One row as assembled by `insert_chunks` (the per-chunk column values). -/
structure ChunkRow (V : Type) where
  paper_id : Int
  doi : Str
  citation_key : Str
  sect : Str
  chunk_index : Nat
  hash : Str
  image_refs : Str
  text : Str
  vector : V

/-- The rows assembled by `insert_chunks` from `zip(chunks, vectors)`;
`hashFn` models `_sha256` (a fixed digest of a string).  `image_refs` is
`"|".join(ch.image_refs) if ch.image_refs else ""`. -/
def insert_chunks_rows {V : Type} (hashFn : Str → Str) (paper_id : Int)
    (doi citation_key : Str) (chunks : List Chunk) (vectors : List V) : List (ChunkRow V) :=
  (chunks.zip vectors).map (fun p =>
    { paper_id := paper_id, doi := doi, citation_key := citation_key,
      sect := p.1.sect, chunk_index := p.1.chunk_index,
      hash := hashFn p.1.text, image_refs := joinWith ['|'] p.1.image_refs,
      text := p.1.text, vector := p.2 })

-- --- Identity reconciler (src/input/utils.py, src/input/check_pdf.py,
-- src/input/input.py lines 146-212) ---

/-- The literal `"N/A"`. -/
def strNA : Str := "N/A".toList

/-- The literal `"unknown"`. -/
def strUnknown : Str := "unknown".toList

/-- A record of the `input_pdf.json` registry (the fields the reconciler
touches); `""` models a missing/empty field, `csl` is the structured-citation
payload (`none` models an absent or falsy payload). -/
structure RegRecord where
  citation_key : Str
  title : Str
  doi : Str
  csl : Option Str
  topic : Str
deriving DecidableEq

/-- The candidate identity extracted for a document (`check_pdf` result after
the synthetic-DOI patching in `input.py`). -/
structure Cand where
  citation_key : Str
  title : Str
  doi : Str
  csl : Option Str
deriving DecidableEq

/-- Index of the first element satisfying `p`. -/
def findIdxO {α : Type} (p : α → Bool) : List α → Option Nat
  | [] => none
  | a :: as => if p a then some 0 else (findIdxO p as).map (· + 1)

/-- Strip a `https?://(dx\.)?doi\.org/` prefix, case-insensitively
(`re.sub` in `normalize_doi`). -/
def doiUrlDrop (s : Str) : Str :=
  if ("https://dx.doi.org/".toList).isPrefixOf (lower s) then s.drop 19
  else if ("http://dx.doi.org/".toList).isPrefixOf (lower s) then s.drop 18
  else if ("https://doi.org/".toList).isPrefixOf (lower s) then s.drop 16
  else if ("http://doi.org/".toList).isPrefixOf (lower s) then s.drop 15
  else s

/-- The punctuation set of `s.strip(" \t\r\n.,;)>")` in `normalize_doi`. -/
def doiPunct (c : Char) : Bool :=
  c = ' ' || c = '\t' || c = '\r' || c = '\n' || c = '.' || c = ',' || c = ';' || c = ')' || c = '>'

/-- `normalize_doi(raw)` (src/input/check_pdf.py lines 41-48). -/
def normalize_doi (raw : Str) : Str :=
  let s := doiUrlDrop (strip raw)
  ((s.dropWhile doiPunct).reverse.dropWhile doiPunct).reverse

/-- Worker for Python `str.split()` (split on whitespace runs, dropping
empty pieces). -/
def swGo : Str → Str → List Str
  | [], acc => if acc = [] then [] else [acc.reverse]
  | c :: rest, acc =>
    if pySpace c then
      (if acc = [] then [] else [acc.reverse]) ++ swGo rest []
    else swGo rest (c :: acc)

/-- Python `str.split()` with no arguments. -/
def splitWS (s : Str) : List Str := swGo s []

/-- `normalize_title(s)` (src/input/utils.py lines 45-52). -/
def normalize_title (s : Str) : Str :=
  let name := if s.contains '.' then ((s.reverse.dropWhile (fun c => ¬ c = '.')).drop 1).reverse else s
  let name := name.map (fun c => if c = '_' ∨ c = '-' then ' ' else c)
  lower (strip (joinWith [' '] (splitWS name)))

/-- `find_by_key(items, key)` (src/input/utils.py lines 77-85), returning the
index of the matched record (the Python function returns the aliased dict,
which the caller mutates in place). -/
def find_by_key (items : List RegRecord) (key : Str) : Option Nat :=
  if key = [] then none
  else findIdxO (fun r =>
    let v := lower (strip r.citation_key)
    decide (v ≠ [] ∧ v = lower (strip key))) items

/-- `find_by_doi(items, doi, normalizer=normalize_doi)` (src/input/utils.py
lines 97-114), returning the index of the matched record. -/
def find_by_doi (items : List RegRecord) (doi : Str) : Option Nat :=
  if doi = [] then none
  else findIdxO (fun r =>
    decide (r.doi ≠ [] ∧ lower (normalize_doi r.doi) = lower (normalize_doi doi))) items

/-- `find_by_title(items, title)` (src/input/utils.py lines 88-94), returning
the index of the matched record. -/
def find_by_title (items : List RegRecord) (title : Str) : Option Nat :=
  findIdxO (fun r => decide (normalize_title r.title = normalize_title title)) items

/-- The merge into an existing record found by citation key
(src/input/input.py lines 148-169).  Each guarded fill reads a field no other
fill writes, so the sequential Python mutations are written as one parallel
record update; the Bool is the `merged` flag. -/
def mergeByKey (e : RegRecord) (res : Cand) (tn : Str) : RegRecord × Bool :=
  let fillDoi := (e.doi == ([] : Str)) && (res.doi != ([] : Str)) && (res.doi != strNA)
  let fillTitle := (e.title == ([] : Str)) && (res.title != ([] : Str)) && (lower res.title != strUnknown)
  let fillCsl := res.csl.isSome && (e.csl == none)
  let fillTopic := (tn != ([] : Str)) && (e.topic == ([] : Str))
  ({ e with
      doi := if fillDoi then res.doi else e.doi,
      title := if fillTitle then res.title else e.title,
      csl := if fillCsl then res.csl else e.csl,
      topic := if fillTopic then tn else e.topic },
    fillDoi || fillTitle || fillCsl || fillTopic)

/-- The merge into an existing record found by DOI (src/input/input.py
lines 172-189); the Bool is whether any field changed. -/
def mergeByDoi (e : RegRecord) (res : Cand) (tn : Str) : RegRecord × Bool :=
  let fillKey := e.citation_key == ([] : Str)
  let fillCsl := res.csl.isSome && (e.csl == none)
  let fillTitle := (res.title != ([] : Str)) && (lower res.title != strUnknown) && (e.title == ([] : Str))
  let fillTopic := (tn != ([] : Str)) && (e.topic == ([] : Str))
  ({ e with
      citation_key := if fillKey then res.citation_key else e.citation_key,
      csl := if fillCsl then res.csl else e.csl,
      title := if fillTitle then res.title else e.title,
      topic := if fillTopic then tn else e.topic },
    fillKey || fillCsl || fillTitle || fillTopic)

/-- The merge into an existing record found by normalized title
(src/input/input.py lines 192-207); note it never fills `title` itself. -/
def mergeByTitle (e : RegRecord) (res : Cand) (tn : Str) : RegRecord × Bool :=
  let fillKey := e.citation_key == ([] : Str)
  let fillCsl := res.csl.isSome && (e.csl == none)
  let fillDoi := (res.doi != ([] : Str)) && (res.doi != strNA) && (e.doi == ([] : Str))
  let fillTopic := (tn != ([] : Str)) && (e.topic == ([] : Str))
  ({ e with
      citation_key := if fillKey then res.citation_key else e.citation_key,
      csl := if fillCsl then res.csl else e.csl,
      doi := if fillDoi then res.doi else e.doi,
      topic := if fillTopic then tn else e.topic },
    fillKey || fillCsl || fillDoi || fillTopic)

/-- One Identity Reconciler pass for one document (src/input/input.py
lines 146-212): dedup by citation key, then DOI, then title, else append a new
record; returns the updated registry and whether it changed (which controls
the `save_db` write-back). -/
def reconcile (items : List RegRecord) (res : Cand) (tn : Str) : List RegRecord × Bool :=
  match find_by_key items res.citation_key with
  | some i =>
    match items[i]? with
    | some e => ((items.set i (mergeByKey e res tn).1), (mergeByKey e res tn).2)
    | none => (items, false)
  | none =>
  match find_by_doi items res.doi with
  | some i =>
    match items[i]? with
    | some e => ((items.set i (mergeByDoi e res tn).1), (mergeByDoi e res tn).2)
    | none => (items, false)
  | none =>
  match find_by_title items res.title with
  | some i =>
    match items[i]? with
    | some e => ((items.set i (mergeByTitle e res tn).1), (mergeByTitle e res tn).2)
    | none => (items, false)
  | none =>
    (items ++ [{ citation_key := res.citation_key, title := res.title,
                 doi := res.doi, csl := res.csl, topic := tn }], true)

-- --- Indexing orchestrator (src/src/14_index.py lines 540-709, per document) ---

/-- One `papers_meta` row as inserted by `insert_paper_meta`. -/
structure MetaRow where
  doi : Str
  citation_key : Str
  title : Str
  journal : Str
  issued : Str
  url : Str
  source_path : Str

/-- The storage state the orchestrator mutates: the paper-metadata rows and
the chunk rows. -/
structure IndexState (V : Type) where
  metaRows : List MetaRow
  chunkRows : List (ChunkRow V)

/-- A document as seen by the orchestrator: raw text, filename stem, and path. -/
structure Doc where
  raw : Str
  stem : Str
  pathStr : Str

/-- Scalar front-matter lookup `meta.get(k)` followed by use as a string;
a list-valued key is modelled as absent (in Python a truthy list here would
raise on `.strip()`, outside this embedding). -/
def fmGetStr (m : List (Str × FMVal)) (k : Str) : Str :=
  match m.find? (fun p => p.1 == k) with
  | some (_, FMVal.str s) => s
  | _ => []

/-- `paper_exists(meta_coll, doi, citation_key)` (src/src/14_index.py
lines 428-448): the query `doi == d or citation_key == k` over the stored
rows, with empty parts omitted from the expression. -/
def paper_exists (rows : List MetaRow) (doi citation_key : Str) : Bool :=
  if doi = [] ∧ citation_key = [] then false
  else rows.any (fun r =>
    decide ((doi ≠ [] ∧ r.doi = doi) ∨ (citation_key ≠ [] ∧ r.citation_key = citation_key)))

/-- The mock citation key for grey literature
(`re.sub(r"[^a-z0-9]+", "", stem.lower()) or "doc"` plus `synthetic[-8:]`). -/
def mockKey (stem synthetic : Str) : Str :=
  let base := (lower stem).filter (fun c => ('a' ≤ c ∧ c ≤ 'z') ∨ ('0' ≤ c ∧ c ≤ '9'))
  (if base = [] then "doc".toList else base) ++ synthetic.drop (synthetic.length - 8)

/-- Number of insert calls issued by the batched loop over `n` rows with batch
size `b` (`range(0, n, b)`, `b ≥ 1`). -/
def batchCount (n b : Nat) : Nat := (n + b - 1) / b

/-- Identity resolution for one document (src/src/14_index.py lines 598-636):
parse front matter, read the bibliographic fields, and when no real DOI
(prefix `"10."`) is present substitute the synthetic `doc:<hash>` identifier
and backfill citation key, title, journal and url.  Returns the paper-level
metadata row and the document body. -/
def docIdentity (hashFn : Str → Str) (doc : Doc) : MetaRow × Str :=
  let meta := (parse_front_matter doc.raw).1
  let body := (parse_front_matter doc.raw).2
  let doi0 := strip (if fmGetStr meta ("doi".toList) ≠ [] then fmGetStr meta ("doi".toList)
                     else fmGetStr meta ("DOI".toList))
  let citation_key0 := strip (fmGetStr meta ("citation_key".toList))
  let title0 := strip (fmGetStr meta ("title".toList))
  let journal0 := strip (fmGetStr meta ("journal".toList))
  let issued0 := strip (fmGetStr meta ("issued".toList))
  let url0 := strip (fmGetStr meta ("url".toList))
  let isReal := ("10.".toList).isPrefixOf doi0
  let synthetic := ("doc:".toList) ++ (hashFn body).take 16
  ({ doi := if isReal then doi0 else synthetic,
     citation_key := if ¬ isReal ∧ citation_key0 = [] then mockKey doc.stem synthetic
                     else citation_key0,
     title := if ¬ isReal ∧ title0 = [] then doc.stem else title0,
     journal := if ¬ isReal ∧ journal0 = [] then "grey-literature".toList else journal0,
     issued := issued0,
     url := if ¬ isReal ∧ url0 = [] then ("file://".toList) ++ doc.pathStr else url0,
     source_path := doc.pathStr }, body)

/-- One Indexing Orchestrator pass over one document (the per-file body of
`main`, src/src/14_index.py lines 597-706, with `--dry-run` off and
`--force-reindex-chunks` given by `force`): resolve identity, skip if the
paper exists, else embed and insert the meta row and the chunk rows.  Returns
the new state and the number of storage insert calls issued. -/
def processDoc {V : Type} (hashFn : Str → Str) (e : Str → V)
    (batchFails : List Str → Bool) (embedBatch insertBatch : Nat)
    (prepend force : Bool) (st : IndexState V) (doc : Doc) : IndexState V × Nat :=
  let row := (docIdentity hashFn doc).1
  let body := (docIdentity hashFn doc).2
  if paper_exists st.metaRows row.doi row.citation_key ∧ ¬ force then (st, 0)
  else
    let chunks := chunk_markdown body 7000
    let texts := chunks.map (embedInput prepend)
    let vectors := embed_texts e batchFails embedBatch texts
    if vectors.isEmpty then (st, 0)
    else
      let paperId : Int := st.metaRows.length
      let rows := insert_chunks_rows hashFn paperId row.doi row.citation_key chunks vectors
      ({ metaRows := st.metaRows ++ [row], chunkRows := st.chunkRows ++ rows },
       1 + batchCount rows.length insertBatch)

-- --- Helper lemmas: chunker ---

lemma hardCutGo_bound {fuel : Nat} {p : Str} {m : Nat} :
    ∀ q ∈ hardCutGo fuel p m, q.length ≤ m := by
  induction fuel generalizing p with
  | zero => intro q hq; simp [hardCutGo] at hq
  | succ fuel ih =>
    intro q hq
    cases p with
    | nil => simp [hardCutGo] at hq
    | cons c r =>
      simp only [hardCutGo, List.mem_cons] at hq
      rcases hq with h | h
      · subst h
        simp [List.length_take]
      · exact ih q h

lemma hardCutGo_flatten {fuel : Nat} {p : Str} {m : Nat} (hm : 1 ≤ m)
    (hf : p.length ≤ fuel) : (hardCutGo fuel p m).flatten = p := by
  induction fuel generalizing p with
  | zero =>
    cases p with
    | nil => simp [hardCutGo]
    | cons c r => simp at hf
  | succ fuel ih =>
    cases p with
    | nil => simp [hardCutGo]
    | cons c r =>
      simp only [List.length_cons] at hf
      have hd : ((c :: r).drop m).length ≤ fuel := by
        rw [List.length_drop, List.length_cons]; omega
      simp only [hardCutGo, List.flatten_cons]
      rw [ih hd]
      exact List.take_append_drop m (c :: r)

lemma smart_split_bound {t : Str} {m : Nat} :
    ∀ q ∈ _smart_split t m, q.length ≤ m := by
  intro q hq
  unfold _smart_split at hq
  split at hq
  · next h => simp only [List.mem_singleton] at hq; subst hq; exact h
  · simp only [List.mem_flatten, List.mem_map] at hq
    obtain ⟨l, ⟨p, _, hpl⟩, hql⟩ := hq
    subst hpl
    split at hql
    · next h => simp only [List.mem_singleton] at hql; subst hql; exact h
    · exact hardCutGo_bound q hql

lemma withIdx_sect {ps : List (Str × List Str)} {s : Str} {i : Nat} :
    ∀ c ∈ withIdx ps s i, c.sect = s := by
  induction ps generalizing i with
  | nil => intro c hc; simp [withIdx] at hc
  | cons p rest ih =>
    intro c hc
    obtain ⟨t, imgs⟩ := p
    simp only [withIdx, List.mem_cons] at hc
    rcases hc with h | h
    · subst h; rfl
    · exact ih c h

lemma withIdx_text {ps : List (Str × List Str)} {s : Str} {i : Nat} :
    ∀ c ∈ withIdx ps s i, ∃ p ∈ ps, c.text = p.1 := by
  induction ps generalizing i with
  | nil => intro c hc; simp [withIdx] at hc
  | cons p rest ih =>
    intro c hc
    obtain ⟨t, imgs⟩ := p
    simp only [withIdx, List.mem_cons] at hc
    rcases hc with h | h
    · exact ⟨(t, imgs), by simp, by subst h; rfl⟩
    · obtain ⟨p2, hp2, hp2t⟩ := ih c h
      exact ⟨p2, by simp [hp2], hp2t⟩

lemma blockPieces_bound {bl : List Str} {m : Nat} :
    ∀ p ∈ blockPieces bl m, p.1.length ≤ m := by
  intro p hp
  unfold blockPieces at hp
  simp only [List.mem_flatten, List.mem_map] at hp
  obtain ⟨l, ⟨para, _, hpl⟩, hql⟩ := hp
  subst hpl
  simp only [paraChunks] at hql
  split at hql
  · simp at hql
  · simp only [List.mem_map] at hql
    obtain ⟨part, hpart, hpartp⟩ := hql
    subst hpartp
    exact smart_split_bound part hpart

lemma flushBlock_bound {bl stack : List Str} {idx m : Nat} :
    ∀ c ∈ flushBlock bl stack idx m, c.text.length ≤ m := by
  intro c hc
  obtain ⟨p, hp, hpt⟩ := withIdx_text c hc
  rw [hpt]
  exact blockPieces_bound p hp

lemma cmGo_bound {m : Nat} :
    ∀ (lines stack block : List Str) (idx : Nat),
      ∀ c ∈ cmGo m lines stack block idx, c.text.length ≤ m := by
  intro lines
  induction lines with
  | nil => intro stack block idx c hc; exact flushBlock_bound c hc
  | cons l rest ih =>
    intro stack block idx c hc
    unfold cmGo at hc
    cases hh : headingMatch l with
    | some p =>
      obtain ⟨level, title⟩ := p
      rw [hh] at hc
      simp only [List.mem_append] at hc
      rcases hc with h | h
      · exact flushBlock_bound c h
      · exact ih _ _ _ c h
    | none =>
      rw [hh] at hc
      exact ih _ _ _ c hc

-- --- C2 ---

/-- C2.  Chunk length bound: with a configured maximum `L ≥ 1`, every chunk
emitted by `chunk_markdown` has `text` of length at most `L`; and the hard-cut
fallback cuts an over-long part into consecutive slices (concatenating back to
the original) each of length at most `L`. -/
theorem c2_chunk_length_bound (body : Str) (L : Nat) (hL : 1 ≤ L) :
    (∀ c ∈ chunk_markdown body L, c.text.length ≤ L) ∧
    (∀ p : Str, (∀ q ∈ hardCutGo p.length p L, q.length ≤ L) ∧
      (hardCutGo p.length p L).flatten = p) := by
  refine ⟨fun c hc => cmGo_bound _ _ _ _ c hc, fun p => ⟨hardCutGo_bound, ?_⟩⟩
  exact hardCutGo_flatten hL (Nat.le_refl _)

/-- Witness for C2 at a concrete body and bound. -/
theorem c2_chunk_length_bound_witness :
    (chunk_markdown ("# A\nabcd efgh ijkl".toList) 5).all
      (fun c => decide (c.text.length ≤ 5)) = true := by
  rw [List.all_eq_true]
  intro c hc
  exact decide_eq_true ((c2_chunk_length_bound ("# A\nabcd efgh ijkl".toList) 5 (by decide)).1
    c hc)

-- --- Helper lemmas: chunk indices and embedding order ---

lemma range'_add_own (s m n : Nat) :
    List.range' s (m + n) = List.range' s m ++ List.range' (s + m) n := by
  induction m generalizing s with
  | zero => simp
  | succ m ih =>
    have h1 : m + 1 + n = (m + n) + 1 := by omega
    have h2 : s + 1 + m = s + (m + 1) := by omega
    rw [h1, List.range'_succ, List.range'_succ, ih (s + 1), h2]
    simp [List.cons_append]

lemma withIdx_length (ps : List (Str × List Str)) (s : Str) (i : Nat) :
    (withIdx ps s i).length = ps.length := by
  induction ps generalizing i with
  | nil => rfl
  | cons p rest ih => obtain ⟨t, imgs⟩ := p; simp [withIdx, ih]

lemma withIdx_chunk_index (ps : List (Str × List Str)) (s : Str) (i : Nat) :
    (withIdx ps s i).map (fun c => c.chunk_index) = List.range' i ps.length := by
  induction ps generalizing i with
  | nil => rfl
  | cons p rest ih =>
    obtain ⟨t, imgs⟩ := p
    simp only [withIdx, List.map_cons, List.length_cons, List.range'_succ]
    rw [ih]

lemma cmGo_chunk_index (m : Nat) :
    ∀ (lines stack block : List Str) (idx : Nat),
      (cmGo m lines stack block idx).map (fun c => c.chunk_index) =
        List.range' idx (cmGo m lines stack block idx).length := by
  intro lines
  induction lines with
  | nil =>
    intro stack block idx
    have h : cmGo m [] stack block idx = withIdx (blockPieces block m) (joinSec stack) idx := rfl
    rw [h, withIdx_chunk_index, withIdx_length]
  | cons l rest ih =>
    intro stack block idx
    unfold cmGo
    cases hh : headingMatch l with
    | some p =>
      obtain ⟨level, title⟩ := p
      simp only [List.map_append, List.length_append]
      rw [ih, range'_add_own]
      unfold flushBlock
      rw [withIdx_chunk_index, withIdx_length]
    | none => exact ih _ _ _

lemma perItem_eq_map {V : Type} (e : Str → V) : ∀ ts, perItem e ts = ts.map e := by
  intro ts
  induction ts with
  | nil => rfl
  | cons t ts ih => simp [perItem, ih]

lemma embedGo_eq_map {V : Type} (e : Str → V) (batchFails : List Str → Bool) (bs : Nat)
    (hbs : 1 ≤ bs) : ∀ (fuel : Nat) (ts : List Str), ts.length ≤ fuel →
      embedGo e batchFails bs fuel ts = ts.map e := by
  intro fuel
  induction fuel with
  | zero =>
    intro ts hts
    have : ts = [] := List.eq_nil_of_length_eq_zero (Nat.le_zero.mp hts)
    subst this
    rfl
  | succ fuel ih =>
    intro ts hts
    cases ts with
    | nil => rfl
    | cons t rest =>
      show (if batchFails ((t :: rest).take bs) then perItem e ((t :: rest).take bs)
            else ((t :: rest).take bs).map e) ++
          embedGo e batchFails bs fuel ((t :: rest).drop bs) = (t :: rest).map e
      have hdrop : ((t :: rest).drop bs).length ≤ fuel := by
        rw [List.length_drop]
        simp only [List.length_cons] at hts ⊢
        omega
      rw [ih _ hdrop]
      have hbr : (if batchFails ((t :: rest).take bs) then perItem e ((t :: rest).take bs)
            else ((t :: rest).take bs).map e) = ((t :: rest).take bs).map e := by
        split <;> [exact perItem_eq_map e _; rfl]
      rw [hbr, ← List.map_append, List.take_append_drop]

-- --- C3 ---

/-- C3.  Chunk order preservation: the `chunk_index` values of the chunks of
any document are exactly `0..N-1` in emission order, and `embed_texts` (with
the per-item fallback after any batch failure) maps the texts derived from the
chunks to their per-text embeddings position by position. -/
theorem c3_chunk_order_preservation (V : Type) (e : Str → V)
    (batchFails : List Str → Bool) (bs : Nat) (hbs : 1 ≤ bs) (body : Str) (L : Nat)
    (f : Chunk → Str) :
    ((chunk_markdown body L).map (fun c => c.chunk_index) =
      List.range (chunk_markdown body L).length) ∧
    embed_texts e batchFails bs ((chunk_markdown body L).map f) =
      (chunk_markdown body L).map (fun c => e (f c)) := by
  constructor
  · rw [List.range_eq_range' _]
    exact cmGo_chunk_index L (splitlines body) [] [] 0
  · rw [embed_texts, embedGo_eq_map e batchFails bs hbs _ _ (Nat.le_refl _), List.map_map]
    rfl

/-- Witness for C3 at a concrete document, with an always-failing batch call
(exercising the per-item fallback) and the section-prefixed embedding input. -/
theorem c3_chunk_order_preservation_witness :
    ((chunk_markdown ("# A\npa\n## B\npb\n# C\npc".toList) 1000).map
        (fun c => c.chunk_index) =
      List.range (chunk_markdown ("# A\npa\n## B\npb\n# C\npc".toList) 1000).length) ∧
    embed_texts (fun s => s.length) (fun _ => true) 2
        ((chunk_markdown ("# A\npa\n## B\npb\n# C\npc".toList) 1000).map (embedInput true)) =
      (chunk_markdown ("# A\npa\n## B\npb\n# C\npc".toList) 1000).map
        (fun c => (embedInput true c).length) :=
  c3_chunk_order_preservation Nat (fun s => s.length) (fun _ => true) 2 (by decide)
    ("# A\npa\n## B\npb\n# C\npc".toList) 1000 (embedInput true)

-- --- Helper lemmas: rows, heading stack ---

lemma mem_of_getElemO {α : Type} {l : List α} {n : Nat} {a : α} (h : l[n]? = some a) :
    a ∈ l := by
  obtain ⟨hlt, he⟩ := List.getElem?_eq_some_iff.mp h
  exact he ▸ List.getElem_mem hlt

lemma insert_chunks_rows_hash {V : Type} (hashFn : Str → Str) (pid : Int)
    (d k : Str) (cs : List Chunk) (vs : List V) :
    ∀ row ∈ insert_chunks_rows hashFn pid d k cs vs, row.hash = hashFn row.text := by
  intro row hrow
  simp only [insert_chunks_rows, List.mem_map] at hrow
  obtain ⟨p, _, hp⟩ := hrow
  subst hp
  rfl

-- --- C7 ---

/-- C7.  Content hash over text alone: every stored chunk row's `hash` is the
digest of its own `text` field and nothing else, so any two rows whose chunk
texts are equal carry equal hashes, across sections, chunk indices, paper
identities, and regardless of the (possibly section-prefixed) embedding
input. -/
theorem c7_content_hash_text_only (V : Type) (hashFn : Str → Str) :
    (∀ (pid : Int) (d k : Str) (cs : List Chunk) (vs : List V),
      ∀ row ∈ insert_chunks_rows hashFn pid d k cs vs, row.hash = hashFn row.text) ∧
    (∀ (pid1 : Int) (d1 k1 : Str) (cs1 : List Chunk) (vs1 : List V)
        (pid2 : Int) (d2 k2 : Str) (cs2 : List Chunk) (vs2 : List V)
        (i j : Nat) (a b : ChunkRow V),
      (insert_chunks_rows hashFn pid1 d1 k1 cs1 vs1)[i]? = some a →
      (insert_chunks_rows hashFn pid2 d2 k2 cs2 vs2)[j]? = some b →
      a.text = b.text → a.hash = b.hash) := by
  refine ⟨fun pid d k cs vs => insert_chunks_rows_hash hashFn pid d k cs vs, ?_⟩
  intro pid1 d1 k1 cs1 vs1 pid2 d2 k2 cs2 vs2 i j a b ha hb htext
  rw [insert_chunks_rows_hash hashFn pid1 d1 k1 cs1 vs1 a (mem_of_getElemO ha),
    insert_chunks_rows_hash hashFn pid2 d2 k2 cs2 vs2 b (mem_of_getElemO hb), htext]

/-- Witness for C7: two chunks with the same text in different sections of
different documents produce rows with equal hashes. -/
theorem c7_content_hash_text_only_witness :
    (insert_chunks_rows (fun s => s.reverse) 1 ("10.1/x".toList) ("k1".toList)
        [⟨"same".toList, "A".toList, 0, []⟩] [(0 : Nat)]).map (fun r => r.hash) =
    (insert_chunks_rows (fun s => s.reverse) 2 ("10.2/y".toList) ("k2".toList)
        [⟨"same".toList, "B".toList, 5, []⟩] [(1 : Nat)]).map (fun r => r.hash) := by
  have h := (c7_content_hash_text_only Nat (fun s => s.reverse)).2
    1 ("10.1/x".toList) ("k1".toList) [⟨"same".toList, "A".toList, 0, []⟩] [(0 : Nat)]
    2 ("10.2/y".toList) ("k2".toList) [⟨"same".toList, "B".toList, 5, []⟩] [(1 : Nat)]
    0 0 _ _ rfl rfl rfl
  exact congrArg (fun x => [x]) h

-- --- Helper lemmas: heading stack ---

lemma popToGo_take : ∀ (fuel : Nat) (st : List Str) (lvl : Nat), st.length ≤ fuel →
    popToGo fuel st lvl = st.take (lvl - 1) := by
  intro fuel
  induction fuel with
  | zero =>
    intro st lvl hst
    have : st = [] := List.eq_nil_of_length_eq_zero (Nat.le_zero.mp hst)
    subst this
    simp [popToGo]
  | succ fuel ih =>
    intro st lvl hst
    unfold popToGo
    split
    · next hc =>
      have hlen : st.dropLast.length ≤ fuel := by
        rw [List.length_dropLast]; omega
      rw [ih st.dropLast lvl hlen, List.dropLast_eq_take, List.take_take]
      congr 1
      omega
    · next hc =>
      rw [List.take_of_length_le]
      omega

lemma popWhile_take (st : List Str) (lvl : Nat) : popWhile st lvl = st.take (lvl - 1) :=
  popToGo_take st.length st lvl (Nat.le_refl _)

lemma stackStep_heading {l : Str} {lvl : Nat} {title : Str} (st : List Str)
    (h : headingMatch l = some (lvl, title)) : stackStep st l = popWhile st lvl ++ [title] := by
  unfold stackStep
  rw [h]

lemma stackStep_nonheading {l : Str} (st : List Str)
    (h : headingMatch l = none) : stackStep st l = st := by
  unfold stackStep
  rw [h]

lemma cmGo_cons (m : Nat) (l : Str) (rest stack block : List Str) (idx : Nat) :
    cmGo m (l :: rest) stack block idx =
      match headingMatch l with
      | some (level, title) =>
        flushBlock block stack idx m ++
          cmGo m rest (popWhile stack level ++ [title]) []
            (idx + (flushBlock block stack idx m).length)
      | none => cmGo m rest stack (block ++ [l]) idx := rfl

lemma cmGo_cons_heading {m : Nat} {l : Str} {rest stack block : List Str} {idx : Nat}
    {lvl : Nat} {title : Str} (h : headingMatch l = some (lvl, title)) :
    cmGo m (l :: rest) stack block idx =
      flushBlock block stack idx m ++
        cmGo m rest (popWhile stack lvl ++ [title]) []
          (idx + (flushBlock block stack idx m).length) := by
  rw [cmGo_cons, h]

lemma cmGo_cons_nonheading {m : Nat} {l : Str} {rest stack block : List Str} {idx : Nat}
    (h : headingMatch l = none) :
    cmGo m (l :: rest) stack block idx = cmGo m rest stack (block ++ [l]) idx := by
  rw [cmGo_cons, h]

lemma headingMatch_bounds {l : Str} {lvl : Nat} {title : Str}
    (h : headingMatch l = some (lvl, title)) : 1 ≤ lvl ∧ lvl ≤ 6 := by
  simp only [headingMatch] at h
  split at h
  · next hc =>
    split at h
    · next c r heq =>
      split at h
      · injection h with h1
        injection h1 with h2 h3
        subst h2
        exact hc
      · exact absurd h (by simp)
    · exact absurd h (by simp)
  · exact absurd h (by simp)

lemma stackStep_length_le {st : List Str} {l : Str} (h : st.length ≤ 6) :
    (stackStep st l).length ≤ 6 := by
  cases hh : headingMatch l with
  | some p =>
    obtain ⟨lvl, title⟩ := p
    have hb := headingMatch_bounds hh
    rw [stackStep_heading st hh, popWhile_take]
    simp only [List.length_append, List.length_take, List.length_cons, List.length_nil]
    omega
  | none => rw [stackStep_nonheading st hh]; exact h

lemma scanl_stackStep_le6 : ∀ (lines : List Str) (st0 : List Str), st0.length ≤ 6 →
    ∀ st ∈ List.scanl stackStep st0 lines, st.length ≤ 6 := by
  intro lines
  induction lines with
  | nil =>
    intro st0 h0 st hst
    simp only [List.scanl, List.mem_singleton] at hst
    subst hst
    exact h0
  | cons l rest ih =>
    intro st0 h0 st hst
    rw [List.scanl_cons, List.singleton_append, List.mem_cons] at hst
    rcases hst with h | h
    · subst h; exact h0
    · exact ih (stackStep st0 l) (stackStep_length_le h0) st h

-- --- C8 ---

/-- C8.  Heading-stack invariant: on a heading line of level `L` the stack
becomes `pop down to length L-1, then push the title` (i.e.
`take (L-1) ++ [title]`); the line walk of `chunk_markdown` updates its stack
by exactly this `stackStep` transition on every line; and along the whole
walk the stack never exceeds length 6. -/
theorem c8_heading_stack_invariant :
    (∀ (stack : List Str) (l : Str) (lvl : Nat) (title : Str),
      headingMatch l = some (lvl, title) →
      stackStep stack l = stack.take (lvl - 1) ++ [title]) ∧
    (∀ (m : Nat) (l : Str) (rest stack block : List Str) (idx lvl : Nat) (title : Str),
      headingMatch l = some (lvl, title) →
      cmGo m (l :: rest) stack block idx =
        flushBlock block stack idx m ++
          cmGo m rest (stackStep stack l) [] (idx + (flushBlock block stack idx m).length)) ∧
    (∀ (m : Nat) (l : Str) (rest stack block : List Str) (idx : Nat),
      headingMatch l = none →
      cmGo m (l :: rest) stack block idx = cmGo m rest (stackStep stack l) (block ++ [l]) idx) ∧
    (∀ (body : Str), ∀ st ∈ List.scanl stackStep [] (splitlines body), st.length ≤ 6) := by
  refine ⟨?_, ?_, ?_, ?_⟩
  · intro stack l lvl title h
    rw [stackStep_heading stack h, popWhile_take]
  · intro m l rest stack block idx lvl title h
    rw [cmGo_cons_heading h, stackStep_heading stack h]
  · intro m l rest stack block idx h
    rw [cmGo_cons_nonheading h, stackStep_nonheading stack h]
  · intro body st hst
    exact scanl_stackStep_le6 (splitlines body) [] (by simp) st hst

/-- Witness for C8: a level-1 heading on a depth-2 stack pops to the root. -/
theorem c8_heading_stack_invariant_witness :
    stackStep ["A".toList, "B".toList] ("# C".toList) =
      (["A".toList, "B".toList].take 0) ++ ["C".toList] :=
  c8_heading_stack_invariant.1 ["A".toList, "B".toList] ("# C".toList) 1 ("C".toList)
    (by decide)

-- --- C9 ---

lemma cmGo_nonheading_block (m : Nat) :
    ∀ (ns rest stack block : List Str) (idx : Nat),
      (∀ x ∈ ns, headingMatch x = none) →
      cmGo m (ns ++ rest) stack block idx = cmGo m rest stack (block ++ ns) idx := by
  intro ns
  induction ns with
  | nil => intro rest stack block idx _; simp
  | cons n ns ih =>
    intro rest stack block idx hns
    have hn : headingMatch n = none := hns n (by simp)
    have hrec := ih rest stack (block ++ [n]) idx (fun x hx => hns x (by simp [hx]))
    simp only [List.cons_append]
    rw [cmGo_cons_nonheading hn, hrec, List.append_assoc]
    rfl

/-- C9.  Section nesting and pre-update tagging: for the concrete body with
headings H1 "A", H2 "B", H1 "C" the chunks get section paths "A", "A / B" and
"C"; and in general a block of non-heading lines followed by a heading is
flushed before the stack is updated, every flushed chunk carrying the joined
section path of the stack as it stood at the start of the block. -/
theorem c9_section_nesting :
    (chunk_markdown ("# A\npa\n## B\npb\n# C\npc".toList) 1000 =
      [⟨"pa".toList, "A".toList, 0, []⟩, ⟨"pb".toList, "A / B".toList, 1, []⟩,
       ⟨"pc".toList, "C".toList, 2, []⟩]) ∧
    (∀ (m : Nat) (ns : List Str) (l : Str) (lvl : Nat) (title : Str)
        (rest stack : List Str) (idx : Nat),
      (∀ x ∈ ns, headingMatch x = none) → headingMatch l = some (lvl, title) →
      cmGo m (ns ++ l :: rest) stack [] idx =
        flushBlock ns stack idx m ++
          cmGo m rest (stack.take (lvl - 1) ++ [title]) []
            (idx + (flushBlock ns stack idx m).length) ∧
      ∀ c ∈ flushBlock ns stack idx m, c.sect = joinSec stack) := by
  constructor
  · decide
  · intro m ns l lvl title rest stack idx hns hl
    constructor
    · rw [cmGo_nonheading_block m ns (l :: rest) stack [] idx hns]
      simp only [List.nil_append]
      rw [cmGo_cons_heading hl, popWhile_take]
    · exact withIdx_sect

/-- Witness for C9: the general flush-before-update decomposition at a
concrete block, heading, and stack. -/
theorem c9_section_nesting_witness :
    cmGo 1000 (["pa".toList] ++ ("# C".toList) :: ["pc".toList]) ["A".toList] [] 0 =
      flushBlock ["pa".toList] ["A".toList] 0 1000 ++
        cmGo 1000 ["pc".toList] (["A".toList].take 0 ++ ["C".toList]) []
          (0 + (flushBlock ["pa".toList] ["A".toList] 0 1000).length) :=
  (c9_section_nesting.2 1000 ["pa".toList] ("# C".toList) 1 ("C".toList) ["pc".toList]
    ["A".toList] 0 (by decide) (by decide)).1

-- --- Helper lemmas: front-matter parser ---

lemma fmLoop_cons (line : Str) (rest : List Str) (meta : List (Str × FMVal))
    (ck : Option Str) (cl : Option (List Str)) :
    fmLoop (line :: rest) meta ck cl =
      if isBoundary line then some (commitList meta ck cl, rest)
      else if strip line = [] then fmLoop rest meta ck cl
      else
        match keyValMatch line with
        | some (key0, val0) =>
          let meta1 := commitList meta ck cl
          let key := strip key0
          let val := strip val0
          if val = [] ∨ val = ['|'] ∨ val = ['>'] then
            fmLoop rest meta1 (some key) (some [])
          else
            fmLoop rest (setMeta meta1 key (FMVal.str (unquote val))) none none
        | none =>
          match listItemMatch line, ck with
          | some g, some k =>
            fmLoop rest meta (some k) (some ((match cl with | none => [] | some l => l) ++
              [unquote (strip g)]))
          | _, _ => fmLoop rest meta ck cl := rfl

lemma fmLoop_no_boundary : ∀ (ls : List Str) (meta : List (Str × FMVal)) (ck : Option Str)
    (cl : Option (List Str)), (∀ l ∈ ls, isBoundary l = false) →
    fmLoop ls meta ck cl = none := by
  intro ls
  induction ls with
  | nil => intro meta ck cl _; rfl
  | cons line rest ih =>
    intro meta ck cl hb
    have hl : isBoundary line = false := hb line (by simp)
    have hrest : ∀ l ∈ rest, isBoundary l = false := fun l hx => hb l (by simp [hx])
    rw [fmLoop_cons, hl]
    simp only [Bool.false_eq_true, if_false]
    by_cases hs : strip line = []
    · rw [if_pos hs]; exact ih _ _ _ hrest
    · rw [if_neg hs]
      cases hkv : keyValMatch line with
      | some p =>
        obtain ⟨k0, v0⟩ := p
        dsimp only
        split
        · exact ih _ _ _ hrest
        · exact ih _ _ _ hrest
      | none =>
        cases hli : listItemMatch line with
        | some g =>
          cases ck with
          | some k => exact ih _ _ _ hrest
          | none => exact ih _ _ _ hrest
        | none =>
          cases ck with
          | some k => exact ih _ _ _ hrest
          | none => exact ih _ _ _ hrest

lemma fmLoop_to_boundary : ∀ (hs : List Str) (l1 : Str) (bs : List Str)
    (meta : List (Str × FMVal)) (ck : Option Str) (cl : Option (List Str)),
    (∀ l ∈ hs, isBoundary l = false) → isBoundary l1 = true →
    ∃ m2, fmLoop (hs ++ l1 :: bs) meta ck cl = some (m2, bs) := by
  intro hs
  induction hs with
  | nil =>
    intro l1 bs meta ck cl _ h1
    rw [List.nil_append, fmLoop_cons, h1]
    exact ⟨commitList meta ck cl, by simp⟩
  | cons line rest ih =>
    intro l1 bs meta ck cl hb h1
    have hl : isBoundary line = false := hb line (by simp)
    have hrest : ∀ l ∈ rest, isBoundary l = false := fun l hx => hb l (by simp [hx])
    rw [List.cons_append, fmLoop_cons, hl]
    simp only [Bool.false_eq_true, if_false]
    by_cases hs2 : strip line = []
    · rw [if_pos hs2]; exact ih _ _ _ _ _ hrest h1
    · rw [if_neg hs2]
      cases hkv : keyValMatch line with
      | some p =>
        obtain ⟨k0, v0⟩ := p
        dsimp only
        split
        · exact ih _ _ _ _ _ hrest h1
        · exact ih _ _ _ _ _ hrest h1
      | none =>
        cases hli : listItemMatch line with
        | some g =>
          cases ck with
          | some k => exact ih _ _ _ _ _ hrest h1
          | none => exact ih _ _ _ _ _ hrest h1
        | none =>
          cases ck with
          | some k => exact ih _ _ _ _ _ hrest h1
          | none => exact ih _ _ _ _ _ hrest h1

lemma fmLoop_skip_line : ∀ (pre : List Str) (l : Str) (post : List Str)
    (meta : List (Str × FMVal)) (ck : Option Str) (cl : Option (List Str)),
    (∀ x ∈ pre, isBoundary x = false) → isBoundary l = false →
    keyValMatch l = none → listItemMatch l = none →
    fmLoop (pre ++ l :: post) meta ck cl = fmLoop (pre ++ post) meta ck cl := by
  intro pre
  induction pre with
  | nil =>
    intro l post meta ck cl _ hbl hkv hli
    rw [List.nil_append, List.nil_append, fmLoop_cons, hbl]
    simp only [Bool.false_eq_true, if_false]
    by_cases hs : strip l = []
    · rw [if_pos hs]
    · rw [if_neg hs, hkv, hli]
  | cons p ps ih =>
    intro l post meta ck cl hb hbl hkv hli
    have hp : isBoundary p = false := hb p (by simp)
    have hps : ∀ x ∈ ps, isBoundary x = false := fun x hx => hb x (by simp [hx])
    rw [List.cons_append, List.cons_append, fmLoop_cons, fmLoop_cons, hp]
    simp only [Bool.false_eq_true, if_false]
    by_cases hs : strip p = []
    · rw [if_pos hs, if_pos hs]; exact ih _ _ _ _ _ hps hbl hkv hli
    · rw [if_neg hs, if_neg hs]
      cases hkv2 : keyValMatch p with
      | some q =>
        obtain ⟨k0, v0⟩ := q
        dsimp only
        split
        · exact ih _ _ _ _ _ hps hbl hkv hli
        · exact ih _ _ _ _ _ hps hbl hkv hli
      | none =>
        cases hli2 : listItemMatch p with
        | some g =>
          cases ck with
          | some k => exact ih _ _ _ _ _ hps hbl hkv hli
          | none => exact ih _ _ _ _ _ hps hbl hkv hli
        | none =>
          cases ck with
          | some k => exact ih _ _ _ _ _ hps hbl hkv hli
          | none => exact ih _ _ _ _ _ hps hbl hkv hli

lemma parse_fm_eq (t : Str) :
    parse_front_matter t =
      match splitlines t with
      | [] => ([], t)
      | l0 :: rest =>
        if isBoundary l0 then
          match fmLoop rest [] none none with
          | some (meta, bodyLines) => (meta, joinLines bodyLines)
          | none => ([], t)
        else ([], t) := rfl

-- --- C5 ---

/-- C5 counterexample: for the document `"---\na: b\n---\nbody\n"` the text
following the second boundary line is `"body\n"`, but the parser returns
`"body"` — the trailing newline is not preserved, refuting the claim that
every character after the boundary is preserved unchanged. -/
theorem c5_counterexample :
    (parse_front_matter ("---\na: b\n---\nbody\n".toList)).2 ≠ ("body\n".toList) ∧
    (parse_front_matter ("---\na: b\n---\nbody\n".toList)).2 = ("body".toList) := by
  decide

/-- C5 (amended).  Front-matter body preservation up to the final line
terminator: when the document's lines are an opening boundary, non-boundary
header lines, a closing boundary, and body lines, the returned body is exactly
the post-boundary lines rejoined with single newlines — i.e. the post-boundary
text is preserved except that a trailing newline is dropped. -/
theorem c5_body_preservation (t : Str) (l0 l1 : Str) (hs bs : List Str)
    (hsp : splitlines t = l0 :: (hs ++ l1 :: bs)) (h0 : isBoundary l0 = true)
    (h1 : isBoundary l1 = true) (hhs : ∀ l ∈ hs, isBoundary l = false) :
    (parse_front_matter t).2 = joinLines bs := by
  rw [parse_fm_eq, hsp]
  obtain ⟨m2, hm⟩ := fmLoop_to_boundary hs l1 bs [] none none hhs h1
  dsimp only
  rw [hm]
  simp [h0]

/-- Witness for the amended C5 at the counterexample document. -/
theorem c5_body_preservation_witness :
    (parse_front_matter ("---\na: b\n---\nbody\n".toList)).2 = joinLines ["body".toList] :=
  c5_body_preservation ("---\na: b\n---\nbody\n".toList) ("---".toList) ("---".toList)
    ["a: b".toList] ["body".toList] (by decide) (by decide) (by decide) (by decide)

-- --- C6 ---

/-- C6.  Front-matter fail-soft: if the first line is not a boundary (or the
text is empty), or if the first line is a boundary but no later line is, the
parser returns the empty mapping and the original text unchanged (the
embedding is a total function, so no error is ever raised). -/
theorem c6_front_matter_fail_soft (t : Str) :
    (((splitlines t).head?.all (fun l0 => !isBoundary l0)) = true →
      parse_front_matter t = ([], t)) ∧
    (∀ l0 rest, splitlines t = l0 :: rest → (∀ l ∈ rest, isBoundary l = false) →
      parse_front_matter t = ([], t)) := by
  constructor
  · intro h
    rw [parse_fm_eq]
    cases hsp : splitlines t with
    | nil => rfl
    | cons l0 rest =>
      rw [hsp] at h
      simp only [List.head?_cons, Option.all_some, Bool.not_eq_true'] at h
      simp [h]
  · intro l0 rest hsp hrest
    rw [parse_fm_eq, hsp]
    dsimp only
    rw [fmLoop_no_boundary rest [] none none hrest]
    simp

/-- Witness for C6: a document whose front matter never closes is returned
unchanged. -/
theorem c6_front_matter_fail_soft_witness :
    parse_front_matter ("---\na: b\nno closing".toList) = ([], "---\na: b\nno closing".toList) :=
  (c6_front_matter_fail_soft ("---\na: b\nno closing".toList)).2 ("---".toList)
    ["a: b".toList, "no closing".toList] (by decide) (by decide)

-- --- C10 ---

/-- C10.  Silent loss inside the front-matter block: a line between the
boundaries matching neither the `key: value` pattern nor the `- item` pattern
is a no-op of the scan loop (deleting it changes neither the metadata nor the
body); a `key: |` line opens a list accumulator, so following block-scalar
text lines are lost and the key maps to an empty list; and a `- item` line
with no open list key is likewise discarded. -/
theorem c10_front_matter_silent_loss :
    (∀ (pre : List Str) (l : Str) (post : List Str) (meta : List (Str × FMVal))
        (ck : Option Str) (cl : Option (List Str)),
      (∀ x ∈ pre, isBoundary x = false) → isBoundary l = false →
      keyValMatch l = none → listItemMatch l = none →
      fmLoop (pre ++ l :: post) meta ck cl = fmLoop (pre ++ post) meta ck cl) ∧
    (parse_front_matter ("---\nk: |\n  blocktext\n  more\n---\nbody".toList) =
      ([(['k'], FMVal.list [])], "body".toList)) ∧
    (parse_front_matter ("---\n- stray\nk: v\n---\nbody".toList) =
      ([(['k'], FMVal.str ['v'])], "body".toList)) := by
  refine ⟨fmLoop_skip_line, by decide, by decide⟩

/-- Witness for C10: dropping a pattern-free line inside the block leaves the
scan result unchanged at a concrete input. -/
theorem c10_front_matter_silent_loss_witness :
    fmLoop (["a: 1".toList] ++ ("just text".toList) :: ["---".toList, "body".toList]) [] none none =
      fmLoop (["a: 1".toList] ++ ["---".toList, "body".toList]) [] none none :=
  c10_front_matter_silent_loss.1 ["a: 1".toList] ("just text".toList)
    ["---".toList, "body".toList] [] none none (by decide) (by decide) (by decide) (by decide)

-- --- Helper lemmas: findIdxO and list updates ---

lemma findIdxO_cons {α : Type} (p : α → Bool) (a : α) (as : List α) :
    findIdxO p (a :: as) = if p a then some 0 else (findIdxO p as).map (· + 1) := rfl

lemma findIdxO_lt {α : Type} {p : α → Bool} : ∀ {l : List α} {i : Nat},
    findIdxO p l = some i → i < l.length := by
  intro l
  induction l with
  | nil => intro i h; simp [findIdxO] at h
  | cons a as ih =>
    intro i h
    rw [findIdxO_cons] at h
    by_cases hp : p a = true
    · rw [if_pos hp] at h
      injection h with h1
      subst h1
      simp
    · rw [if_neg hp] at h
      cases hrec : findIdxO p as with
      | none => rw [hrec] at h; simp at h
      | some j =>
        rw [hrec] at h
        simp only [Option.map_some'] at h
        injection h with h1
        subst h1
        have := ih hrec
        simp only [List.length_cons]
        omega

lemma findIdxO_get {α : Type} {p : α → Bool} : ∀ {l : List α} {i : Nat},
    findIdxO p l = some i → ∃ a, l[i]? = some a ∧ p a = true := by
  intro l
  induction l with
  | nil => intro i h; simp [findIdxO] at h
  | cons a as ih =>
    intro i h
    rw [findIdxO_cons] at h
    by_cases hp : p a = true
    · rw [if_pos hp] at h
      injection h with h1
      subst h1
      exact ⟨a, by simp, hp⟩
    · rw [if_neg hp] at h
      cases hrec : findIdxO p as with
      | none => rw [hrec] at h; simp at h
      | some j =>
        rw [hrec] at h
        simp only [Option.map_some'] at h
        injection h with h1
        subst h1
        obtain ⟨b, hb, hpb⟩ := ih hrec
        exact ⟨b, by simpa using hb, hpb⟩

lemma findIdxO_none {α : Type} {p : α → Bool} : ∀ {l : List α},
    findIdxO p l = none → ∀ a ∈ l, p a = false := by
  intro l
  induction l with
  | nil => intro _ a ha; simp at ha
  | cons b as ih =>
    intro h a ha
    rw [findIdxO_cons] at h
    by_cases hp : p b = true
    · rw [if_pos hp] at h; simp at h
    · rw [if_neg hp] at h
      rcases List.mem_cons.mp ha with h1 | h1
      · subst h1; simpa using hp
      · cases hrec : findIdxO p as with
        | none => exact ih hrec a h1
        | some j => rw [hrec] at h; simp at h

lemma findIdxO_all_false {α : Type} {p : α → Bool} : ∀ {l : List α},
    (∀ a ∈ l, p a = false) → findIdxO p l = none := by
  intro l
  induction l with
  | nil => intro _; rfl
  | cons b as ih =>
    intro h
    rw [findIdxO_cons, if_neg (by simp [h b (by simp)]),
      ih (fun a ha => h a (by simp [ha]))]
    rfl

lemma findIdxO_set_same {α : Type} {p : α → Bool} : ∀ {l : List α} {i : Nat} {b : α},
    findIdxO p l = some i → p b = true → findIdxO p (l.set i b) = some i := by
  intro l
  induction l with
  | nil => intro i b h _; simp [findIdxO] at h
  | cons a as ih =>
    intro i b h hpb
    rw [findIdxO_cons] at h
    by_cases hp : p a = true
    · rw [if_pos hp] at h
      injection h with h1
      subst h1
      simp [List.set, findIdxO_cons, hpb]
    · rw [if_neg hp] at h
      cases hrec : findIdxO p as with
      | none => rw [hrec] at h; simp at h
      | some j =>
        rw [hrec] at h
        simp only [Option.map_some'] at h
        injection h with h1
        subst h1
        simp only [List.set]
        rw [findIdxO_cons, if_neg hp, ih hrec hpb]
        rfl

lemma findIdxO_set_new {α : Type} {p : α → Bool} : ∀ {l : List α} {i : Nat} {b : α},
    (∀ a ∈ l, p a = false) → i < l.length → p b = true →
    findIdxO p (l.set i b) = some i := by
  intro l
  induction l with
  | nil => intro i b _ hi _; simp at hi
  | cons a as ih =>
    intro i b hall hi hpb
    cases i with
    | zero => simp [List.set, findIdxO_cons, hpb]
    | succ j =>
      simp only [List.set]
      rw [findIdxO_cons, if_neg (by simp [hall a (by simp)])]
      rw [ih (fun x hx => hall x (by simp [hx])) (by simpa using hi) hpb]
      rfl

lemma findIdxO_append_one {α : Type} {p : α → Bool} : ∀ (l : List α) (b : α),
    findIdxO p (l ++ [b]) =
      match findIdxO p l with
      | some i => some i
      | none => if p b then some l.length else none := by
  intro l b
  induction l with
  | nil =>
    rw [List.nil_append, findIdxO_cons]
    by_cases hb : p b = true <;> simp [hb, findIdxO]
  | cons a as ih =>
    rw [List.cons_append, findIdxO_cons, findIdxO_cons]
    by_cases hp : p a = true
    · rw [if_pos hp, if_pos hp]
    · rw [if_neg hp, if_neg hp, ih]
      cases hrec : findIdxO p as with
      | some j => rfl
      | none => by_cases hb : p b = true <;> simp [hb]

lemma set_getElem_self {α : Type} : ∀ {l : List α} {i : Nat} {a : α},
    l[i]? = some a → l.set i a = l := by
  intro l
  induction l with
  | nil => intro i a h; simp at h
  | cons b bs ih =>
    intro i a h
    cases i with
    | zero => simp only [List.getElem?_cons_zero, Option.some_inj] at h; simp [List.set, h]
    | succ j =>
      simp only [List.getElem?_cons_succ] at h
      simp [List.set, ih h]

-- --- Helper lemmas: fill-only merges ---

lemma mergeByKey_fill_only (e : RegRecord) (res : Cand) (tn : Str) :
    (mergeByKey e res tn).1.citation_key = e.citation_key ∧
    (e.doi ≠ [] → (mergeByKey e res tn).1.doi = e.doi) ∧
    (e.title ≠ [] → (mergeByKey e res tn).1.title = e.title) ∧
    (e.csl.isSome → (mergeByKey e res tn).1.csl = e.csl) ∧
    (e.topic ≠ [] → (mergeByKey e res tn).1.topic = e.topic) := by
  refine ⟨rfl, fun h => ?_, fun h => ?_, fun h => ?_, fun h => ?_⟩ <;>
    simp only [mergeByKey] <;>
    rw [if_neg (by simp_all [Option.isSome_iff_ne_none])]

lemma mergeByDoi_fill_only (e : RegRecord) (res : Cand) (tn : Str) :
    (e.citation_key ≠ [] → (mergeByDoi e res tn).1.citation_key = e.citation_key) ∧
    (mergeByDoi e res tn).1.doi = e.doi ∧
    (e.title ≠ [] → (mergeByDoi e res tn).1.title = e.title) ∧
    (e.csl.isSome → (mergeByDoi e res tn).1.csl = e.csl) ∧
    (e.topic ≠ [] → (mergeByDoi e res tn).1.topic = e.topic) := by
  refine ⟨fun h => ?_, rfl, fun h => ?_, fun h => ?_, fun h => ?_⟩ <;>
    simp only [mergeByDoi] <;>
    rw [if_neg (by simp_all [Option.isSome_iff_ne_none])]

lemma mergeByTitle_fill_only (e : RegRecord) (res : Cand) (tn : Str) :
    (e.citation_key ≠ [] → (mergeByTitle e res tn).1.citation_key = e.citation_key) ∧
    (e.doi ≠ [] → (mergeByTitle e res tn).1.doi = e.doi) ∧
    (mergeByTitle e res tn).1.title = e.title ∧
    (e.csl.isSome → (mergeByTitle e res tn).1.csl = e.csl) ∧
    (e.topic ≠ [] → (mergeByTitle e res tn).1.topic = e.topic) := by
  refine ⟨fun h => ?_, fun h => ?_, rfl, fun h => ?_, fun h => ?_⟩ <;>
    simp only [mergeByTitle] <;>
    rw [if_neg (by simp_all [Option.isSome_iff_ne_none])]

-- --- Helper lemmas: reconcile branch equations ---

lemma reconcile_key_branch {items : List RegRecord} {res : Cand} {tn : Str} {i : Nat}
    {e : RegRecord} (h : find_by_key items res.citation_key = some i)
    (he : items[i]? = some e) :
    reconcile items res tn = (items.set i (mergeByKey e res tn).1, (mergeByKey e res tn).2) := by
  unfold reconcile
  rw [h]
  dsimp only
  rw [he]

lemma reconcile_doi_branch {items : List RegRecord} {res : Cand} {tn : Str} {i : Nat}
    {e : RegRecord} (hk : find_by_key items res.citation_key = none)
    (h : find_by_doi items res.doi = some i) (he : items[i]? = some e) :
    reconcile items res tn = (items.set i (mergeByDoi e res tn).1, (mergeByDoi e res tn).2) := by
  unfold reconcile
  rw [hk]
  dsimp only
  rw [h]
  dsimp only
  rw [he]

lemma reconcile_title_branch {items : List RegRecord} {res : Cand} {tn : Str} {i : Nat}
    {e : RegRecord} (hk : find_by_key items res.citation_key = none)
    (hd : find_by_doi items res.doi = none)
    (h : find_by_title items res.title = some i) (he : items[i]? = some e) :
    reconcile items res tn =
      (items.set i (mergeByTitle e res tn).1, (mergeByTitle e res tn).2) := by
  unfold reconcile
  rw [hk]
  dsimp only
  rw [hd]
  dsimp only
  rw [h]
  dsimp only
  rw [he]

lemma reconcile_new_branch {items : List RegRecord} {res : Cand} {tn : Str}
    (hk : find_by_key items res.citation_key = none)
    (hd : find_by_doi items res.doi = none)
    (ht : find_by_title items res.title = none) :
    reconcile items res tn =
      (items ++ [{ citation_key := res.citation_key, title := res.title,
                   doi := res.doi, csl := res.csl, topic := tn }], true) := by
  unfold reconcile
  rw [hk]
  dsimp only
  rw [hd]
  dsimp only
  rw [ht]

lemma find_by_key_some {items : List RegRecord} {k : Str} {i : Nat}
    (h : find_by_key items k = some i) :
    k ≠ [] ∧ findIdxO (fun r =>
      let v := lower (strip r.citation_key)
      decide (v ≠ [] ∧ v = lower (strip k))) items = some i := by
  unfold find_by_key at h
  split at h
  · simp at h
  · next hk => exact ⟨hk, h⟩

lemma find_by_doi_some {items : List RegRecord} {d : Str} {i : Nat}
    (h : find_by_doi items d = some i) :
    d ≠ [] ∧ findIdxO (fun r =>
      decide (r.doi ≠ [] ∧ lower (normalize_doi r.doi) = lower (normalize_doi d))) items =
      some i := by
  unfold find_by_doi at h
  split at h
  · simp at h
  · next hd => exact ⟨hd, h⟩

-- --- C4 ---

/-- C4.  Reconciler precedence and fill-only merge: on any pass, (1) no
non-empty field of any registry record is ever replaced (merges only fill
empty fields); (2) a new record is appended exactly when citation-key, DOI and
title lookups all fail; and (3)-(6) the reconciler merges into the first
citation-key match, else the first DOI match, else the first normalized-title
match, else appends the new record — in that precedence order. -/
theorem c4_reconcile_precedence_fill_only (items : List RegRecord) (res : Cand) (tn : Str) :
    (∀ (i : Nat) (r r2 : RegRecord), items[i]? = some r →
      ((reconcile items res tn).1)[i]? = some r2 →
      (r.citation_key ≠ [] → r2.citation_key = r.citation_key) ∧
      (r.doi ≠ [] → r2.doi = r.doi) ∧
      (r.title ≠ [] → r2.title = r.title) ∧
      (r.csl.isSome → r2.csl = r.csl) ∧
      (r.topic ≠ [] → r2.topic = r.topic)) ∧
    ((reconcile items res tn).1.length = items.length + 1 ↔
      (find_by_key items res.citation_key = none ∧ find_by_doi items res.doi = none ∧
        find_by_title items res.title = none)) ∧
    (∀ (i : Nat) (e : RegRecord), find_by_key items res.citation_key = some i →
      items[i]? = some e →
      reconcile items res tn =
        (items.set i (mergeByKey e res tn).1, (mergeByKey e res tn).2)) ∧
    (∀ (i : Nat) (e : RegRecord), find_by_key items res.citation_key = none →
      find_by_doi items res.doi = some i → items[i]? = some e →
      reconcile items res tn =
        (items.set i (mergeByDoi e res tn).1, (mergeByDoi e res tn).2)) ∧
    (∀ (i : Nat) (e : RegRecord), find_by_key items res.citation_key = none →
      find_by_doi items res.doi = none → find_by_title items res.title = some i →
      items[i]? = some e →
      reconcile items res tn =
        (items.set i (mergeByTitle e res tn).1, (mergeByTitle e res tn).2)) ∧
    (find_by_key items res.citation_key = none → find_by_doi items res.doi = none →
      find_by_title items res.title = none →
      reconcile items res tn =
        (items ++ [(⟨res.citation_key, res.title, res.doi, res.csl, tn⟩ : RegRecord)],
          true)) := by
  have hset : ∀ (i idx : Nat) (e2 : RegRecord) (r r2 : RegRecord),
      items[idx]? = some r → (items.set i e2)[idx]? = some r2 →
      (∀ (hi : idx = i),
        (r.citation_key ≠ [] → e2.citation_key = r.citation_key) ∧
        (r.doi ≠ [] → e2.doi = r.doi) ∧ (r.title ≠ [] → e2.title = r.title) ∧
        (r.csl.isSome → e2.csl = r.csl) ∧ (r.topic ≠ [] → e2.topic = r.topic)) →
      (r.citation_key ≠ [] → r2.citation_key = r.citation_key) ∧
      (r.doi ≠ [] → r2.doi = r.doi) ∧ (r.title ≠ [] → r2.title = r.title) ∧
      (r.csl.isSome → r2.csl = r.csl) ∧ (r.topic ≠ [] → r2.topic = r.topic) := by
    intro i idx e2 r r2 hr hr2 hcase
    by_cases hi : idx = i
    · subst hi
      have hlt : idx < items.length := by
        by_contra hge
        rw [List.getElem?_eq_none (by omega)] at hr
        exact absurd hr (by simp)
      rw [List.getElem?_set_self hlt] at hr2
      injection hr2 with h2
      subst h2
      exact hcase rfl
    · rw [List.getElem?_set_ne (fun he => hi he.symm)] at hr2
      rw [hr] at hr2
      injection hr2 with h2
      subst h2
      exact ⟨fun _ => rfl, fun _ => rfl, fun _ => rfl, fun _ => rfl, fun _ => rfl⟩
  refine ⟨?_, ?_, ?_, ?_, ?_, ?_⟩
  · -- fill-only
    intro idx r r2 hr hr2
    cases hk : find_by_key items res.citation_key with
    | some i =>
      obtain ⟨_, hfi⟩ := find_by_key_some hk
      obtain ⟨e, he, _⟩ := findIdxO_get hfi
      rw [reconcile_key_branch hk he] at hr2
      refine hset i idx _ r r2 hr hr2 (fun hi => ?_)
      subst hi
      rw [he] at hr
      injection hr with h3
      subst h3
      obtain ⟨p1, p2, p3, p4, p5⟩ := mergeByKey_fill_only e res tn
      exact ⟨fun _ => p1, p2, p3, p4, p5⟩
    | none =>
      cases hd : find_by_doi items res.doi with
      | some i =>
        obtain ⟨_, hfi⟩ := find_by_doi_some hd
        obtain ⟨e, he, _⟩ := findIdxO_get hfi
        rw [reconcile_doi_branch hk hd he] at hr2
        refine hset i idx _ r r2 hr hr2 (fun hi => ?_)
        subst hi
        rw [he] at hr
        injection hr with h3
        subst h3
        obtain ⟨p1, p2, p3, p4, p5⟩ := mergeByDoi_fill_only e res tn
        exact ⟨p1, fun _ => p2, p3, p4, p5⟩
      | none =>
        cases ht : find_by_title items res.title with
        | some i =>
          obtain ⟨e, he, _⟩ := findIdxO_get (by
            unfold find_by_title at ht
            exact ht)
          rw [reconcile_title_branch hk hd ht he] at hr2
          refine hset i idx _ r r2 hr hr2 (fun hi => ?_)
          subst hi
          rw [he] at hr
          injection hr with h3
          subst h3
          obtain ⟨p1, p2, p3, p4, p5⟩ := mergeByTitle_fill_only e res tn
          exact ⟨p1, p2, fun _ => p3, p4, p5⟩
        | none =>
          rw [reconcile_new_branch hk hd ht] at hr2
          have hlt : idx < items.length := by
            by_contra hge
            rw [List.getElem?_eq_none (by omega)] at hr
            exact absurd hr (by simp)
          dsimp only at hr2
          rw [List.getElem?_append, if_pos hlt, hr] at hr2
          injection hr2 with h2
          subst h2
          exact ⟨fun _ => rfl, fun _ => rfl, fun _ => rfl, fun _ => rfl, fun _ => rfl⟩
  · -- new-record iff all lookups fail
    cases hk : find_by_key items res.citation_key with
    | some i =>
      obtain ⟨_, hfi⟩ := find_by_key_some hk
      obtain ⟨e, he, _⟩ := findIdxO_get hfi
      rw [reconcile_key_branch hk he]
      simp only [List.length_set]
      constructor
      · intro h; omega
      · rintro ⟨h1, _⟩; exact absurd h1 (by simp)
    | none =>
      cases hd : find_by_doi items res.doi with
      | some i =>
        obtain ⟨_, hfi⟩ := find_by_doi_some hd
        obtain ⟨e, he, _⟩ := findIdxO_get hfi
        rw [reconcile_doi_branch hk hd he]
        simp only [List.length_set]
        constructor
        · intro h; omega
        · rintro ⟨_, h1, _⟩; exact absurd h1 (by simp)
      | none =>
        cases ht : find_by_title items res.title with
        | some i =>
          obtain ⟨e, he, _⟩ := findIdxO_get (by
            unfold find_by_title at ht
            exact ht)
          rw [reconcile_title_branch hk hd ht he]
          simp only [List.length_set]
          constructor
          · intro h; omega
          · rintro ⟨_, _, h1⟩; exact absurd h1 (by simp)
        | none =>
          rw [reconcile_new_branch hk hd ht]
          simp [hk, hd, ht]
  · intro i e hk he; exact reconcile_key_branch hk he
  · intro i e hk hd he; exact reconcile_doi_branch hk hd he
  · intro i e hk hd ht he; exact reconcile_title_branch hk hd ht he
  · intro hk hd ht; exact reconcile_new_branch hk hd ht

/-- Witness for C4 at the spec's own example: an existing record with key
`smith2020x` and empty DOI, and a new extraction with the same key and DOI
`10.1/abc`, is merged by key (the DOI is filled in, no second record). -/
theorem c4_reconcile_precedence_fill_only_witness :
    reconcile [⟨"smith2020x".toList, "T".toList, [], none, []⟩]
        ⟨"smith2020x".toList, "T".toList, "10.1/abc".toList, none⟩ [] =
      ([⟨"smith2020x".toList, "T".toList, [], none, []⟩].set 0
        (mergeByKey ⟨"smith2020x".toList, "T".toList, [], none, []⟩
          ⟨"smith2020x".toList, "T".toList, "10.1/abc".toList, none⟩ []).1,
       (mergeByKey ⟨"smith2020x".toList, "T".toList, [], none, []⟩
          ⟨"smith2020x".toList, "T".toList, "10.1/abc".toList, none⟩ []).2) :=
  (c4_reconcile_precedence_fill_only [⟨"smith2020x".toList, "T".toList, [], none, []⟩]
      ⟨"smith2020x".toList, "T".toList, "10.1/abc".toList, none⟩ []).2.2.1 0
    ⟨"smith2020x".toList, "T".toList, [], none, []⟩ (by decide) (by decide)

-- --- Helper lemmas: merge-condition stability (second pass fills nothing) ---

lemma condA2_stable (x v : Str) (c1 c2 : Bool) (hv : c1 = true → c2 = true → v ≠ []) :
    ((((if ((x == ([] : Str)) && c1) && c2 then v else x) == ([] : Str)) && c1) && c2) = false := by
  cases c1 with
  | false => simp
  | true =>
    cases c2 with
    | false => simp
    | true =>
      by_cases hx : x = []
      · simp [hx, hv rfl rfl]
      · simp [hx]

lemma condB2_stable (x v : Str) (c1 c2 : Bool) (hv : c1 = true → c2 = true → v ≠ []) :
    ((c1 && c2) && ((if (c1 && c2) && (x == ([] : Str)) then v else x) == ([] : Str))) = false := by
  cases c1 with
  | false => simp
  | true =>
    cases c2 with
    | false => simp
    | true =>
      by_cases hx : x = []
      · simp [hx, hv rfl rfl]
      · simp [hx]

lemma condMix_stable (x v : Str) (c1 c2 : Bool) (hv : c1 = true → c2 = true → v ≠ []) :
    ((((if (c1 && c2) && (x == ([] : Str)) then v else x) == ([] : Str)) && c1) && c2) = false := by
  cases c1 with
  | false => simp
  | true =>
    cases c2 with
    | false => simp
    | true =>
      by_cases hx : x = []
      · simp [hx, hv rfl rfl]
      · simp [hx]

lemma condKey_stable (x v : Str) (hv : v ≠ []) :
    ((if x == ([] : Str) then v else x) == ([] : Str)) = false := by
  by_cases hx : x = [] <;> simp [hx, hv]

lemma condCsl_stable (x v : Option Str) :
    (v.isSome && ((if v.isSome && (x == none) then v else x) == none)) = false := by
  cases v with
  | none => simp
  | some a => by_cases hx : x = none <;> simp [hx]

lemma condTopic_stable (x v : Str) :
    ((v != ([] : Str)) &&
      ((if (v != ([] : Str)) && (x == ([] : Str)) then v else x) == ([] : Str))) = false := by
  by_cases hv : v = []
  · simp [hv]
  · by_cases hx : x = [] <;> simp [hv, hx]

-- --- Helper lemmas: second-pass merges are no-ops ---

lemma mergeByKey_idem (e : RegRecord) (res : Cand) (tn : Str) :
    mergeByKey (mergeByKey e res tn).1 res tn = ((mergeByKey e res tn).1, false) := by
  simp only [mergeByKey]
  rw [condA2_stable e.doi res.doi _ _ (fun h1 _ => by simpa using h1),
    condA2_stable e.title res.title _ _ (fun h1 _ => by simpa using h1),
    condCsl_stable e.csl res.csl, condTopic_stable e.topic tn]
  simp

lemma mergeByDoi_idem (e : RegRecord) (res : Cand) (tn : Str) (hk : res.citation_key ≠ []) :
    mergeByDoi (mergeByDoi e res tn).1 res tn = ((mergeByDoi e res tn).1, false) := by
  simp only [mergeByDoi]
  rw [condKey_stable e.citation_key res.citation_key hk,
    condB2_stable e.title res.title _ _ (fun h1 _ => by simpa using h1),
    condCsl_stable e.csl res.csl, condTopic_stable e.topic tn]
  simp

lemma mergeByTitle_idem (e : RegRecord) (res : Cand) (tn : Str) (hk : res.citation_key ≠ []) :
    mergeByTitle (mergeByTitle e res tn).1 res tn = ((mergeByTitle e res tn).1, false) := by
  simp only [mergeByTitle]
  rw [condKey_stable e.citation_key res.citation_key hk,
    condB2_stable e.doi res.doi _ _ (fun h1 _ => by simpa using h1),
    condCsl_stable e.csl res.csl, condTopic_stable e.topic tn]
  simp

lemma mergeByKey_after_doi (e : RegRecord) (res : Cand) (tn : Str) (hd : e.doi ≠ []) :
    mergeByKey (mergeByDoi e res tn).1 res tn = ((mergeByDoi e res tn).1, false) := by
  simp only [mergeByKey, mergeByDoi]
  rw [condMix_stable e.title res.title _ _ (fun h1 _ => by simpa using h1),
    condCsl_stable e.csl res.csl, condTopic_stable e.topic tn,
    show (((e.doi == ([] : Str)) && (res.doi != ([] : Str))) && (res.doi != strNA)) = false by
      simp [hd]]
  simp

lemma mergeByKey_after_title (e : RegRecord) (res : Cand) (tn : Str) (ht : e.title ≠ []) :
    mergeByKey (mergeByTitle e res tn).1 res tn = ((mergeByTitle e res tn).1, false) := by
  simp only [mergeByKey, mergeByTitle]
  rw [condMix_stable e.doi res.doi _ _ (fun h1 _ => by simpa using h1),
    condCsl_stable e.csl res.csl, condTopic_stable e.topic tn,
    show (((e.title == ([] : Str)) && (res.title != ([] : Str))) &&
        (lower res.title != strUnknown)) = false by
      simp [ht]]
  simp

lemma mergeByDoi_after_title (e : RegRecord) (res : Cand) (tn : Str)
    (hk : res.citation_key ≠ []) (ht : e.title ≠ []) :
    mergeByDoi (mergeByTitle e res tn).1 res tn = ((mergeByTitle e res tn).1, false) := by
  simp only [mergeByDoi, mergeByTitle]
  rw [condKey_stable e.citation_key res.citation_key hk,
    condCsl_stable e.csl res.csl, condTopic_stable e.topic tn,
    show (((res.title != ([] : Str)) && (lower res.title != strUnknown)) &&
        (e.title == ([] : Str))) = false by
      simp [ht]]
  simp

lemma mergeByKey_new (res : Cand) (tn : Str) :
    mergeByKey ⟨res.citation_key, res.title, res.doi, res.csl, tn⟩ res tn =
      (⟨res.citation_key, res.title, res.doi, res.csl, tn⟩, false) := by
  simp only [mergeByKey]
  by_cases h1 : res.doi = [] <;> by_cases h2 : res.title = [] <;>
    cases hc : res.csl <;> by_cases h3 : tn = [] <;> simp_all

lemma mergeByDoi_new (res : Cand) (tn : Str) (hk : res.citation_key ≠ []) :
    mergeByDoi ⟨res.citation_key, res.title, res.doi, res.csl, tn⟩ res tn =
      (⟨res.citation_key, res.title, res.doi, res.csl, tn⟩, false) := by
  simp only [mergeByDoi]
  by_cases h2 : res.title = [] <;> cases hc : res.csl <;> by_cases h3 : tn = [] <;>
    simp_all

lemma mergeByTitle_new (res : Cand) (tn : Str) (hk : res.citation_key ≠ []) :
    mergeByTitle ⟨res.citation_key, res.title, res.doi, res.csl, tn⟩ res tn =
      (⟨res.citation_key, res.title, res.doi, res.csl, tn⟩, false) := by
  simp only [mergeByTitle]
  by_cases h1 : res.doi = [] <;> cases hc : res.csl <;> by_cases h3 : tn = [] <;>
    simp_all

-- --- Helper lemmas: second reconciler pass is a no-op ---

lemma find_by_key_none_idx {items : List RegRecord} {k : Str} (hk : k ≠ [])
    (h : find_by_key items k = none) :
    findIdxO (fun r =>
      let v := lower (strip r.citation_key)
      decide (v ≠ [] ∧ v = lower (strip k))) items = none := by
  unfold find_by_key at h
  rwa [if_neg hk] at h

lemma find_by_doi_none_idx {items : List RegRecord} {d : Str} (hd : d ≠ [])
    (h : find_by_doi items d = none) :
    findIdxO (fun r =>
      decide (r.doi ≠ [] ∧ lower (normalize_doi r.doi) = lower (normalize_doi d)))
      items = none := by
  unfold find_by_doi at h
  rwa [if_neg hd] at h

lemma reconcile_idem (items : List RegRecord) (res : Cand) (tn : Str)
    (hkey : res.citation_key ≠ []) (htitle : normalize_title res.title ≠ []) :
    reconcile (reconcile items res tn).1 res tn = ((reconcile items res tn).1, false) := by
  cases hk : find_by_key items res.citation_key with
  | some i =>
    obtain ⟨hkne, hfi⟩ := find_by_key_some hk
    obtain ⟨e, he, hpe⟩ := findIdxO_get hfi
    rw [reconcile_key_branch hk he]
    have hck : (mergeByKey e res tn).1.citation_key = e.citation_key :=
      (mergeByKey_fill_only e res tn).1
    have hpe2 : (fun r =>
        let v := lower (strip r.citation_key)
        decide (v ≠ [] ∧ v = lower (strip res.citation_key))) (mergeByKey e res tn).1 = true := by
      simpa [hck] using hpe
    have hk2 : find_by_key (items.set i (mergeByKey e res tn).1) res.citation_key = some i := by
      unfold find_by_key
      rw [if_neg hkne]
      exact findIdxO_set_same hfi hpe2
    have he2 : (items.set i (mergeByKey e res tn).1)[i]? = some (mergeByKey e res tn).1 :=
      List.getElem?_set_self (findIdxO_lt hfi)
    rw [reconcile_key_branch hk2 he2, mergeByKey_idem e res tn, List.set_set]
  | none =>
    have hkidx := find_by_key_none_idx hkey hk
    have hkall := findIdxO_none hkidx
    cases hd : find_by_doi items res.doi with
    | some i =>
      obtain ⟨hdne, hfd⟩ := find_by_doi_some hd
      obtain ⟨e, he, hpe⟩ := findIdxO_get hfd
      have hedoi : e.doi ≠ [] := by
        have hpe' := hpe
        simp only [decide_eq_true_eq] at hpe'
        exact hpe'.1
      rw [reconcile_doi_branch hk hd he]
      have he2 : (items.set i (mergeByDoi e res tn).1)[i]? = some (mergeByDoi e res tn).1 :=
        List.getElem?_set_self (findIdxO_lt hfd)
      by_cases hpk2 : (fun r =>
          let v := lower (strip r.citation_key)
          decide (v ≠ [] ∧ v = lower (strip res.citation_key))) (mergeByDoi e res tn).1 = true
      · have hk2 : find_by_key (items.set i (mergeByDoi e res tn).1) res.citation_key =
            some i := by
          unfold find_by_key
          rw [if_neg hkey]
          exact findIdxO_set_new hkall (findIdxO_lt hfd) hpk2
        rw [reconcile_key_branch hk2 he2, mergeByKey_after_doi e res tn hedoi, List.set_set]
      · have hpk2f := Bool.eq_false_iff.mpr hpk2
        have hk2 : find_by_key (items.set i (mergeByDoi e res tn).1) res.citation_key =
            none := by
          unfold find_by_key
          rw [if_neg hkey]
          apply findIdxO_all_false
          intro a ha
          rcases List.mem_or_eq_of_mem_set ha with h1 | h1
          · exact hkall a h1
          · subst h1; exact hpk2f
        have hdoi_pres : (mergeByDoi e res tn).1.doi = e.doi :=
          (mergeByDoi_fill_only e res tn).2.1
        have hpd2 : (fun r =>
            decide (r.doi ≠ [] ∧ lower (normalize_doi r.doi) = lower (normalize_doi res.doi)))
            (mergeByDoi e res tn).1 = true := by
          simpa [hdoi_pres] using hpe
        have hd2 : find_by_doi (items.set i (mergeByDoi e res tn).1) res.doi = some i := by
          unfold find_by_doi
          rw [if_neg hdne]
          exact findIdxO_set_same hfd hpd2
        rw [reconcile_doi_branch hk2 hd2 he2, mergeByDoi_idem e res tn hkey, List.set_set]
    | none =>
      cases ht : find_by_title items res.title with
      | some i =>
        have hft : findIdxO (fun r =>
            decide (normalize_title r.title = normalize_title res.title)) items = some i := by
          unfold find_by_title at ht
          exact ht
        obtain ⟨e, he, hpe⟩ := findIdxO_get hft
        have hte : normalize_title e.title = normalize_title res.title := by
          simpa [decide_eq_true_eq] using hpe
        have hetitle : e.title ≠ [] := by
          intro h0
          rw [h0] at hte
          exact htitle (by rw [← hte]; rfl)
        rw [reconcile_title_branch hk hd ht he]
        have he2 : (items.set i (mergeByTitle e res tn).1)[i]? =
            some (mergeByTitle e res tn).1 :=
          List.getElem?_set_self (findIdxO_lt hft)
        have httl_pres : (mergeByTitle e res tn).1.title = e.title :=
          (mergeByTitle_fill_only e res tn).2.2.1
        have hpt2 : (fun r =>
            decide (normalize_title r.title = normalize_title res.title))
            (mergeByTitle e res tn).1 = true := by
          simpa [httl_pres] using hpe
        by_cases hpk2 : (fun r =>
            let v := lower (strip r.citation_key)
            decide (v ≠ [] ∧ v = lower (strip res.citation_key)))
            (mergeByTitle e res tn).1 = true
        · have hk2 : find_by_key (items.set i (mergeByTitle e res tn).1) res.citation_key =
              some i := by
            unfold find_by_key
            rw [if_neg hkey]
            exact findIdxO_set_new hkall (findIdxO_lt hft) hpk2
          rw [reconcile_key_branch hk2 he2, mergeByKey_after_title e res tn hetitle,
            List.set_set]
        · have hpk2f := Bool.eq_false_iff.mpr hpk2
          have hk2 : find_by_key (items.set i (mergeByTitle e res tn).1) res.citation_key =
              none := by
            unfold find_by_key
            rw [if_neg hkey]
            apply findIdxO_all_false
            intro a ha
            rcases List.mem_or_eq_of_mem_set ha with h1 | h1
            · exact hkall a h1
            · subst h1; exact hpk2f
          by_cases hdoi0 : res.doi = []
          · have hd2 : find_by_doi (items.set i (mergeByTitle e res tn).1) res.doi = none := by
              unfold find_by_doi
              rw [if_pos hdoi0]
            have ht2 : find_by_title (items.set i (mergeByTitle e res tn).1) res.title =
                some i := by
              unfold find_by_title
              exact findIdxO_set_same hft hpt2
            rw [reconcile_title_branch hk2 hd2 ht2 he2, mergeByTitle_idem e res tn hkey,
              List.set_set]
          · have hdall := findIdxO_none (find_by_doi_none_idx hdoi0 hd)
            by_cases hpd2 : (fun r =>
                decide (r.doi ≠ [] ∧ lower (normalize_doi r.doi) =
                  lower (normalize_doi res.doi))) (mergeByTitle e res tn).1 = true
            · have hd2 : find_by_doi (items.set i (mergeByTitle e res tn).1) res.doi =
                  some i := by
                unfold find_by_doi
                rw [if_neg hdoi0]
                exact findIdxO_set_new hdall (findIdxO_lt hft) hpd2
              rw [reconcile_doi_branch hk2 hd2 he2,
                mergeByDoi_after_title e res tn hkey hetitle, List.set_set]
            · have hpd2f := Bool.eq_false_iff.mpr hpd2
              have hd2 : find_by_doi (items.set i (mergeByTitle e res tn).1) res.doi =
                  none := by
                unfold find_by_doi
                rw [if_neg hdoi0]
                apply findIdxO_all_false
                intro a ha
                rcases List.mem_or_eq_of_mem_set ha with h1 | h1
                · exact hdall a h1
                · subst h1; exact hpd2f
              have ht2 : find_by_title (items.set i (mergeByTitle e res tn).1) res.title =
                  some i := by
                unfold find_by_title
                exact findIdxO_set_same hft hpt2
              rw [reconcile_title_branch hk2 hd2 ht2 he2, mergeByTitle_idem e res tn hkey,
                List.set_set]
      | none =>
        rw [reconcile_new_branch hk hd ht]
        have he2 : (items ++ [(⟨res.citation_key, res.title, res.doi, res.csl, tn⟩ :
            RegRecord)])[items.length]? =
            some (⟨res.citation_key, res.title, res.doi, res.csl, tn⟩ : RegRecord) := by
          rw [List.getElem?_append_right (Nat.le_refl _)]
          simp
        have htidx : findIdxO (fun r =>
            decide (normalize_title r.title = normalize_title res.title)) items = none := by
          unfold find_by_title at ht
          exact ht
        by_cases hpk2 : (fun r =>
            let v := lower (strip r.citation_key)
            decide (v ≠ [] ∧ v = lower (strip res.citation_key)))
            (⟨res.citation_key, res.title, res.doi, res.csl, tn⟩ : RegRecord) = true
        · have hk2 : find_by_key
              (items ++ [(⟨res.citation_key, res.title, res.doi, res.csl, tn⟩ : RegRecord)])
              res.citation_key = some items.length := by
            unfold find_by_key
            rw [if_neg hkey, findIdxO_append_one, hkidx]
            dsimp only
            rw [if_pos hpk2]
          rw [reconcile_key_branch hk2 he2, mergeByKey_new res tn]
          dsimp only
          rw [set_getElem_self he2]
        · have hpk2f := Bool.eq_false_iff.mpr hpk2
          have hk2 : find_by_key
              (items ++ [(⟨res.citation_key, res.title, res.doi, res.csl, tn⟩ : RegRecord)])
              res.citation_key = none := by
            unfold find_by_key
            rw [if_neg hkey, findIdxO_append_one, hkidx]
            dsimp only
            rw [if_neg (fun hc => hpk2 hc)]
          by_cases hdoi0 : res.doi = []
          · have hd2 : find_by_doi
                (items ++ [(⟨res.citation_key, res.title, res.doi, res.csl, tn⟩ : RegRecord)])
                res.doi = none := by
              unfold find_by_doi
              rw [if_pos hdoi0]
            have hpt_n : (fun r =>
                decide (normalize_title r.title = normalize_title res.title))
                (⟨res.citation_key, res.title, res.doi, res.csl, tn⟩ : RegRecord) = true := by
              simp
            have ht2 : find_by_title
                (items ++ [(⟨res.citation_key, res.title, res.doi, res.csl, tn⟩ : RegRecord)])
                res.title = some items.length := by
              unfold find_by_title
              rw [findIdxO_append_one, htidx]
              dsimp only
              rw [if_pos hpt_n]
            rw [reconcile_title_branch hk2 hd2 ht2 he2, mergeByTitle_new res tn hkey]
            dsimp only
            rw [set_getElem_self he2]
          · have hpd_n : (fun r =>
                decide (r.doi ≠ [] ∧ lower (normalize_doi r.doi) =
                  lower (normalize_doi res.doi)))
                (⟨res.citation_key, res.title, res.doi, res.csl, tn⟩ : RegRecord) = true := by
              simp [hdoi0]
            have hdidx := find_by_doi_none_idx hdoi0 hd
            have hd2 : find_by_doi
                (items ++ [(⟨res.citation_key, res.title, res.doi, res.csl, tn⟩ : RegRecord)])
                res.doi = some items.length := by
              unfold find_by_doi
              rw [if_neg hdoi0, findIdxO_append_one, hdidx]
              dsimp only
              rw [if_pos hpd_n]
            rw [reconcile_doi_branch hk2 hd2 he2, mergeByDoi_new res tn hkey]
            dsimp only
            rw [set_getElem_self he2]

lemma real_or_synth_ne (D H : Str) :
    (if ("10.".toList).isPrefixOf D then D else ("doc:".toList) ++ H) ≠ [] := by
  split
  · next h =>
    intro hnil
    rw [hnil] at h
    exact absurd h (by decide)
  · simp

lemma docIdentity_doi_ne (hashFn : Str → Str) (doc : Doc) :
    (docIdentity hashFn doc).1.doi ≠ [] := by
  unfold docIdentity
  dsimp only
  exact real_or_synth_ne _ _

lemma processDoc_skip {V : Type} (hashFn : Str → Str) (e : Str → V)
    (batchFails : List Str → Bool) (eb ib : Nat) (prepend : Bool)
    (st2 : IndexState V) (doc : Doc)
    (h : paper_exists st2.metaRows (docIdentity hashFn doc).1.doi
      (docIdentity hashFn doc).1.citation_key = true) :
    processDoc hashFn e batchFails eb ib prepend false st2 doc = (st2, 0) := by
  unfold processDoc
  dsimp only
  rw [if_pos ⟨h, by simp⟩]

lemma processDoc_idem {V : Type} (hashFn : Str → Str) (e : Str → V)
    (batchFails : List Str → Bool) (eb ib : Nat) (prepend : Bool)
    (st : IndexState V) (doc : Doc) :
    processDoc hashFn e batchFails eb ib prepend false
      (processDoc hashFn e batchFails eb ib prepend false st doc).1 doc =
      ((processDoc hashFn e batchFails eb ib prepend false st doc).1, 0) := by
  have hdoi := docIdentity_doi_ne hashFn doc
  by_cases h1 : paper_exists st.metaRows (docIdentity hashFn doc).1.doi
      (docIdentity hashFn doc).1.citation_key = true
  · rw [processDoc_skip hashFn e batchFails eb ib prepend st doc h1]
    exact processDoc_skip hashFn e batchFails eb ib prepend st doc h1
  · by_cases h2 : (embed_texts e batchFails eb
        ((chunk_markdown (docIdentity hashFn doc).2 7000).map (embedInput prepend))).isEmpty =
        true
    · have hpass1 : processDoc hashFn e batchFails eb ib prepend false st doc = (st, 0) := by
        unfold processDoc
        dsimp only
        rw [if_neg (fun hc => h1 hc.1), if_pos h2]
      rw [hpass1]
      exact hpass1
    · have hpass1 : processDoc hashFn e batchFails eb ib prepend false st doc =
          ({ metaRows := st.metaRows ++ [(docIdentity hashFn doc).1],
             chunkRows := st.chunkRows ++
               insert_chunks_rows hashFn (st.metaRows.length : Int)
                 (docIdentity hashFn doc).1.doi (docIdentity hashFn doc).1.citation_key
                 (chunk_markdown (docIdentity hashFn doc).2 7000)
                 (embed_texts e batchFails eb
                   ((chunk_markdown (docIdentity hashFn doc).2 7000).map
                     (embedInput prepend))) },
           1 + batchCount (insert_chunks_rows hashFn (st.metaRows.length : Int)
                 (docIdentity hashFn doc).1.doi (docIdentity hashFn doc).1.citation_key
                 (chunk_markdown (docIdentity hashFn doc).2 7000)
                 (embed_texts e batchFails eb
                   ((chunk_markdown (docIdentity hashFn doc).2 7000).map
                     (embedInput prepend)))).length ib) := by
        unfold processDoc
        dsimp only
        rw [if_neg (fun hc => h1 hc.1), if_neg h2]
      rw [hpass1]
      apply processDoc_skip
      show paper_exists (st.metaRows ++ [(docIdentity hashFn doc).1]) _ _ = true
      unfold paper_exists
      rw [if_neg (fun hc => hdoi hc.1)]
      rw [List.any_append]
      simp [hdoi]

-- --- C1 ---

set_option maxHeartbeats 4000000

/-- C1 counterexample: re-ingestion is not idempotent as claimed.  Registry
`[{citation_key: "other", title: "", doi: ""}]` and candidate
`(citation_key "mykey", title "-", doi "10.1/x")`: the first pass matches by
normalized title (both normalize to `""`) and fills only the DOI — never the
title — so the second pass matches the record by DOI and fills the still-empty
title, changing the registry content again and reporting a change (a second
`save_db` write). -/
theorem c1_counterexample :
    (reconcile (reconcile [(⟨"other".toList, [], [], none, []⟩ : RegRecord)]
          (⟨"mykey".toList, ['-'], "10.1/x".toList, none⟩ : Cand) []).1
        (⟨"mykey".toList, ['-'], "10.1/x".toList, none⟩ : Cand) []).1 ≠
      (reconcile [(⟨"other".toList, [], [], none, []⟩ : RegRecord)]
          (⟨"mykey".toList, ['-'], "10.1/x".toList, none⟩ : Cand) []).1 ∧
    (reconcile (reconcile [(⟨"other".toList, [], [], none, []⟩ : RegRecord)]
          (⟨"mykey".toList, ['-'], "10.1/x".toList, none⟩ : Cand) []).1
        (⟨"mykey".toList, ['-'], "10.1/x".toList, none⟩ : Cand) []).2 = true := by
  constructor
  · decide
  · decide

/-- C1 (amended).  Idempotence of re-ingestion, provided the candidate's
citation key is non-empty (which the extractor always guarantees) and the
candidate's title does not normalize to the empty string: a second Identity
Reconciler pass leaves the registry exactly as the first pass left it and
reports no change (so no `save_db` write-back occurs); and a second Indexing
Orchestrator pass on any document always skips it (its resolved identity is
already recorded, or it was empty and stored nothing) and issues zero
additional storage writes. -/
theorem c1_reingestion_idempotence (items : List RegRecord) (res : Cand) (tn : Str)
    (hkey : res.citation_key ≠ []) (htitle : normalize_title res.title ≠ []) :
    (reconcile (reconcile items res tn).1 res tn = ((reconcile items res tn).1, false)) ∧
    (∀ (V : Type) (hashFn : Str → Str) (e : Str → V) (batchFails : List Str → Bool)
        (eb ib : Nat) (prepend : Bool) (st : IndexState V) (doc : Doc),
      processDoc hashFn e batchFails eb ib prepend false
        (processDoc hashFn e batchFails eb ib prepend false st doc).1 doc =
        ((processDoc hashFn e batchFails eb ib prepend false st doc).1, 0)) :=
  ⟨reconcile_idem items res tn hkey htitle,
   fun _ hashFn e batchFails eb ib prepend st doc =>
     processDoc_idem hashFn e batchFails eb ib prepend st doc⟩

/-- Witness for the amended C1 at a concrete registry and candidate. -/
theorem c1_reingestion_idempotence_witness :
    reconcile (reconcile [] (⟨"mykey".toList, ['T'], "10.1/x".toList, none⟩ : Cand) []).1
        (⟨"mykey".toList, ['T'], "10.1/x".toList, none⟩ : Cand) [] =
      ((reconcile [] (⟨"mykey".toList, ['T'], "10.1/x".toList, none⟩ : Cand) []).1, false) :=
  (c1_reingestion_idempotence [] (⟨"mykey".toList, ['T'], "10.1/x".toList, none⟩ : Cand) []
    (by decide) (by decide)).1

end DocRag

